import Mathlib

/-!
# uae2ynab — verification of the parsing/normalization engine

Shallow embedding of the bank-statement parsing engine:
* the line tokenizer, date/amount normalizers and the ADCB CSV extractors
  (`src/unnamed/part_001`, also shipped as `lib/parsers/adcb.ts`),
* the ENBD PDF extractors and the layout reconstructor
  (`src/client/src/lib/parsers/enbd.ts`),
* the YNAB export serializers (`ynab-export` in both observed variants),
* the orchestrator (`src/client/src/lib/parsers/index.ts`).

JavaScript numbers are modelled by `JsNum` (a rational or NaN); machine
floating point is not reproduced, but every numeric literal appearing in the
claims is an exact small rational, where double and rational arithmetic agree.
External services (pdf.js text extraction, `File.text()`) are modelled as
`Except String` valued fields of a `FileModel`; a `.error` value is a fault
of the service, and an `Except.error` result of an orchestrator function is
an uncaught exception (a rejected promise).
-/

/- The Batteries rational-arithmetic primitives are `@[irreducible]`, which
blocks `decide` on concrete parser runs; restore their reducibility for this
file so witnesses evaluate. -/
attribute [local semireducible] Rat.add Rat.mul Rat.sub Rat.inv Rat.ofScientific

/-! ## Characters and strings -/

/-- Whitespace for `trim` / `\s`: the characters actually occurring in this
data path (pdf text and CSV lines).  JS additionally treats some exotic
unicode space characters as whitespace; none are relevant here. -/
def isWsChar (c : Char) : Bool :=
  c == ' ' || c == '\t' || c == '\n' || c == '\r' || c == '\x0c' || c == '\x0b'

def trimChars (l : List Char) : List Char :=
  ((l.dropWhile isWsChar).reverse.dropWhile isWsChar).reverse

/-- JS `String.prototype.trim`. -/
def jsTrim (s : String) : String :=
  ⟨trimChars s.data⟩

/-- JS `String.prototype.split(sep)` with a single-character separator:
splits at every occurrence, keeping empty pieces. -/
def splitCharAux (c : Char) : List Char → List Char → List String
  | [], cur => [⟨cur.reverse⟩]
  | a :: rest, cur =>
    if a == c then ⟨cur.reverse⟩ :: splitCharAux c rest []
    else splitCharAux c rest (a :: cur)

def splitChar (c : Char) (s : String) : List String :=
  splitCharAux c s.data []

def startsWithChars : List Char → List Char → Bool
  | [], _ => true
  | _ :: _, [] => false
  | a :: as, b :: bs => a == b && startsWithChars as bs

/-- JS `String.prototype.startsWith`. -/
def jsStartsWith (pre s : String) : Bool :=
  startsWithChars pre.data s.data

def hasSubAux (needle : List Char) : List Char → Bool
  | [] => startsWithChars needle []
  | a :: t => startsWithChars needle (a :: t) || hasSubAux needle t

/-- JS `String.prototype.includes`. -/
def jsIncludes (s sub : String) : Bool :=
  hasSubAux sub.data s.data

/-- JS `String.prototype.endsWith`. -/
def jsEndsWith (suffix s : String) : Bool :=
  startsWithChars suffix.data.reverse s.data.reverse

/-- JS `String.prototype.toLowerCase` (ASCII; inputs are ASCII file names
and month names). -/
def jsToLower (s : String) : String :=
  ⟨s.data.map Char.toLower⟩

/-- JS `'x'.padStart(2, '0')`. -/
def padStartTwo (s : String) : String :=
  if 2 ≤ s.data.length then s else ⟨List.replicate (2 - s.data.length) '0' ++ s.data⟩

/-- `Array.prototype.join(sep)`. -/
def joinSep (sep : String) : List String → String
  | [] => ""
  | [a] => a
  | a :: b :: rest => a ++ sep ++ joinSep sep (b :: rest)

/-- Collapse every whitespace run to a single space: `replace(/\s+/g, ' ')`.
The boolean records whether the previous character was whitespace (i.e. the
current run already emitted its space). -/
def collapseWsAux (prevWs : Bool) : List Char → List Char
  | [] => []
  | a :: rest =>
    if isWsChar a then
      if prevWs then collapseWsAux true rest else ' ' :: collapseWsAux true rest
    else a :: collapseWsAux false rest

def collapseWs (s : String) : String :=
  ⟨collapseWsAux false s.data⟩

/-! ## JavaScript numbers -/

/-- A JS number as it occurs in this code base: an exact rational or NaN. -/
inductive JsNum where
  | nan : JsNum
  | num (q : ℚ) : JsNum
deriving DecidableEq, Repr

/-- JS `x === 0` (NaN compares false, and `-0 === 0`). -/
def JsNum.eqZero : JsNum → Bool
  | .nan => false
  | .num q => q == 0

/-- JS `x > 0` (false for NaN). -/
def JsNum.gtZero : JsNum → Bool
  | .nan => false
  | .num q => 0 < q

/-- JS `x < 0` (false for NaN). -/
def JsNum.ltZero : JsNum → Bool
  | .nan => false
  | .num q => q < 0

/-- JS unary minus (NaN stays NaN). -/
def JsNum.neg : JsNum → JsNum
  | .nan => .nan
  | .num q => .num (-q)

/-- JS `isNaN`. -/
def JsNum.isNan : JsNum → Bool
  | .nan => true
  | .num _ => false

/-- JS `Math.abs`. -/
def JsNum.abs : JsNum → JsNum
  | .nan => .nan
  | .num q => .num |q|

/-- Digits of a decimal mantissa: integer part digits, fractional digits. -/
def digitsVal (l : List Char) : ℕ :=
  l.foldl (fun acc c => acc * 10 + c.toNat - '0'.toNat) 0

/-- JS `parseFloat` on the longest numeric prefix: leading whitespace,
optional sign, digits with an optional decimal point, optional exponent.
(`Infinity` literals do not occur in this data path and are parsed as NaN.) -/
def parseFloatCore (l : List Char) : JsNum :=
  let l := l.dropWhile isWsChar
  let (sgn, l) : ℚ × List Char :=
    match l with
    | '-' :: rest => (-1, rest)
    | '+' :: rest => (1, rest)
    | _ => (1, l)
  let intPart := l.takeWhile Char.isDigit
  let l := l.dropWhile Char.isDigit
  let (fracPart, l) : List Char × List Char :=
    match l with
    | '.' :: rest => (rest.takeWhile Char.isDigit, rest.dropWhile Char.isDigit)
    | _ => ([], l)
  if intPart.isEmpty && fracPart.isEmpty then .nan
  else
    let mant : ℚ :=
      (digitsVal intPart : ℚ) + (digitsVal fracPart : ℚ) / (10 ^ fracPart.length : ℚ)
    let e : ℤ :=
      match l with
      | 'e' :: rest | 'E' :: rest =>
        let (esgn, rest) : ℤ × List Char :=
          match rest with
          | '-' :: r => (-1, r)
          | '+' :: r => (1, r)
          | _ => (1, rest)
        let ds := rest.takeWhile Char.isDigit
        if ds.isEmpty then 0 else esgn * (digitsVal ds : ℤ)
      | _ => 0
    .num (sgn * mant * (10 : ℚ) ^ e)

def parseFloatJs (s : String) : JsNum :=
  parseFloatCore s.data

/-- `str.replace(/,/g, '')`. -/
def stripCommas (s : String) : String :=
  ⟨s.data.filter (· ≠ ',')⟩

/-! ## Data model (`adcb.ts`) -/

structure Transaction where
  date : String
  payee : String
  memo : String
  amount : JsNum
  originalDate : String
deriving DecidableEq, Repr

/-- `metadata: Record<string, string>` is modelled as the assignment list in
program order (each key is assigned at most once per parser run). -/
structure ParseResult where
  bankName : String
  statementType : String
  transactions : List Transaction
  metadata : List (String × String)
  errors : List String
deriving DecidableEq, Repr

/-! ## Line tokenizer and shared normalizers (`adcb.ts`) -/

/-- `parseCSVLine`: quote characters toggle `inQuotes` and are dropped;
a comma outside quotes ends the current field; fields are trimmed. -/
def parseCSVLineAux : List Char → Bool → List Char → List String
  | [], _, cur => [jsTrim ⟨cur.reverse⟩]
  | c :: rest, inQuotes, cur =>
    if c == '"' then parseCSVLineAux rest (!inQuotes) cur
    else if c == ',' && !inQuotes then
      jsTrim ⟨cur.reverse⟩ :: parseCSVLineAux rest inQuotes []
    else parseCSVLineAux rest inQuotes (c :: cur)

def parseCSVLine (line : String) : List String :=
  parseCSVLineAux line.data false []

/-- `parseDDMMYYYY` (identical helper in `adcb.ts` and `enbd.ts`). -/
def parseDDMMYYYY (dateStr : String) : String :=
  match splitChar '/' dateStr with
  | [dd, mm, yyyy] => yyyy ++ "-" ++ padStartTwo mm ++ "-" ++ padStartTwo dd
  | _ => dateStr

/-- `parseAmount` from `adcb.ts`. -/
def parseAmount (str : String) : JsNum :=
  if str = "" || str = "0" then .num 0
  else parseFloatJs (stripCommas str)

/-- `cleanDescription` from `adcb.ts`. -/
def cleanDescription (desc : String) : String :=
  if desc = "" then ""
  else jsTrim (collapseWs desc)

/-! ## ADCB regex helpers -/

/-- `^\d{2}\/\d{2}\/\d{4}$` -/
def isStrictDDMMYYYY (s : String) : Bool :=
  match s.data with
  | [a, b, s1, c, d, s2, e, f, g, h] =>
    a.isDigit && b.isDigit && s1 == '/' && c.isDigit && d.isDigit && s2 == '/' &&
      e.isDigit && f.isDigit && g.isDigit && h.isDigit
  | _ => false

/-- Backtracking step shared by the metadata captures `/Label<run>*(<cap>+)/`:
the greedy run gives characters back one at a time until the capture class
can match at least one character. -/
def captureBacktrack (capClass : Char → Bool) : List Char → List Char → Option (List Char)
  | revRun, after =>
    let cap := after.takeWhile capClass
    if cap.isEmpty then
      match revRun with
      | [] => none
      | c :: revRest => captureBacktrack capClass revRest (c :: after)
    else some cap

/-- Leftmost match of `/label<runClass>*(<capClass>+)/`, returning the capture. -/
def captureAfterLabel (label : List Char) (runClass capClass : Char → Bool) :
    List Char → Option String
  | [] =>
    if label.isEmpty then
      ((captureBacktrack capClass [] []).map fun c => (⟨c⟩ : String))
    else none
  | a :: rest =>
    if startsWithChars label (a :: rest) then
      let after := (a :: rest).drop label.length
      let run := after.takeWhile runClass
      let tail := after.drop run.length
      match captureBacktrack capClass run.reverse tail with
      | some cap => some ⟨cap⟩
      | none => captureAfterLabel label runClass capClass rest
    else captureAfterLabel label runClass capClass rest

/-- `/Label:\s*([^"]+)/` — the shape of all three ADCB account metadata
captures (the label includes the colon / `(s):` part). -/
def adcbCapture (label : String) (line : String) : Option String :=
  captureAfterLabel label.data isWsChar (fun c => !(c == '"')) line.data

/-- `.trim().replace(/\s*,\s*$/, '')`: trim, then drop one trailing comma
together with the whitespace around it. -/
def stripTrailingComma (s : String) : String :=
  let t := trimChars s.data
  match t.reverse with
  | ',' :: rest => ⟨(rest.dropWhile isWsChar).reverse⟩
  | _ => ⟨t⟩

/-! ## ADCB detector and extractors -/

inductive ADCBType where
  | account
  | creditcard
deriving DecidableEq, Repr

/-- `content.split('\n').map(l => l.trim()).filter(Boolean)` -/
def prepLines (content : String) : List String :=
  ((splitChar '\n' content).map jsTrim).filter (· ≠ "")

def detectADCBType (content : String) : Option ADCBType :=
  let lines := prepLines content
  if jsIncludes (lines.headD "") "Account Number:" then
    some .account
  else if jsIncludes (lines.headD "") "Statement Period" &&
      lines.any (fun l => jsIncludes l "Credit Limit") then
    some .creditcard
  else if (lines.take 10).any (fun line =>
      jsIncludes line "Posting Date" && jsIncludes line "Value Date" &&
        jsIncludes line "Debit Amount") then
    some .account
  else if (lines.take 10).any (fun line =>
      jsIncludes line "Transaction Date" && jsIncludes line "Cr/Dr" &&
        jsIncludes line "Amount in AED") then
    some .creditcard
  else none

/-- Metadata entries contributed by one line of an ADCB account statement
(the three `if (line.includes(...)) { match ... }` blocks, in program order). -/
def adcbAccountMetaOf (line : String) : List (String × String) :=
  (if jsIncludes line "Account Number:" then
    match adcbCapture "Account Number:" line with
    | some m => [("accountNumber", stripTrailingComma m)]
    | none => []
  else []) ++
  (if jsIncludes line "Statement Period:" then
    match adcbCapture "Statement Period:" line with
    | some m => [("period", stripTrailingComma m)]
    | none => []
  else []) ++
  (if jsIncludes line "Account Name" then
    match adcbCapture "Account Name(s):" line with
    | some m => [("accountName", stripTrailingComma m)]
    | none => []
  else [])

def adcbAccountIsHeader (line : String) : Bool :=
  jsStartsWith "Posting Date" line || jsIncludes line "Posting Date,Value Date"

/-- The metadata/header loop of `parseADCBAccount`: collects metadata up to
and including the header line and, when the header is found, returns the
lines after it. -/
def adcbAccountScan : List String → List (String × String) × Option (List String)
  | [] => ([], none)
  | l :: rest =>
    let m := adcbAccountMetaOf l
    if adcbAccountIsHeader l then (m, some rest)
    else
      let (ms, r) := adcbAccountScan rest
      (m ++ ms, r)

/-- One iteration of the transaction loop of `parseADCBAccount`. -/
def adcbAccountRow (line : String) : Option Transaction :=
  let fields := parseCSVLine line
  if fields.length < 6 then none
  else
    let postingDate := fields.getD 0 ""
    let description := fields.getD 3 ""
    let debitStr := fields.getD 4 ""
    let creditStr := fields.getD 5 ""
    if postingDate = "" || !isStrictDDMMYYYY postingDate then none
    else
      let debit := parseAmount debitStr
      let credit := parseAmount creditStr
      if debit.eqZero && credit.eqZero then none
      else
        let amount := if credit.gtZero then credit else debit.neg
        some { date := parseDDMMYYYY postingDate
               payee := cleanDescription description
               memo := ""
               amount := amount
               originalDate := postingDate }

def parseADCBAccount (content : String) : ParseResult :=
  let lines := prepLines content
  match adcbAccountScan lines with
  | (metadata, none) =>
    { bankName := "ADCB", statementType := "Account Statement", transactions := []
      metadata := metadata
      errors := ["Could not find header row in ADCB account statement"] }
  | (metadata, some afterHeader) =>
    { bankName := "ADCB", statementType := "Account Statement"
      transactions := afterHeader.filterMap adcbAccountRow
      metadata := metadata
      errors := [] }

/-- Metadata entries contributed by one line of an ADCB credit card statement. -/
def adcbCreditMetaOf (line : String) : List (String × String) :=
  (if jsIncludes line "Statement Period" then
    match captureAfterLabel "Statement Period".data
        (fun c => isWsChar c || c == ':') (fun c => !(c == '"')) line.data with
    | some m => [("period", jsTrim m)]
    | none => []
  else []) ++
  (if jsIncludes line "Current Balance" then
    match adcbCapture "Current Balance:" line with
    | some m => [("balance", jsTrim m)]
    | none => []
  else []) ++
  (if jsIncludes line "Credit Limit" && !jsIncludes line "Available" then
    match adcbCapture "Credit Limit:" line with
    | some m => [("creditLimit", jsTrim m)]
    | none => []
  else [])

def adcbCreditIsHeader (line : String) : Bool :=
  jsIncludes line "Transaction Date" && jsIncludes line "Cr/Dr"

def adcbCreditScan : List String → List (String × String) × Option (List String)
  | [] => ([], none)
  | l :: rest =>
    let m := adcbCreditMetaOf l
    if adcbCreditIsHeader l then (m, some rest)
    else
      let (ms, r) := adcbCreditScan rest
      (m ++ ms, r)

/-- One iteration of the transaction loop of `parseADCBCreditCard`. -/
def adcbCreditRow (line : String) : Option Transaction :=
  let fields := parseCSVLine line
  if fields.length < 4 then none
  else
    let dateStr := fields.getD 0 ""
    let description := fields.getD 1 ""
    let crDr := fields.getD 2 ""
    let amountStr := fields.getD 3 ""
    if jsIncludes description "Primary Card Number" ||
        jsIncludes description "Card Holder Name" then none
    else if dateStr = "" || !isStrictDDMMYYYY dateStr then none
    else
      let rawAmount := parseAmount amountStr
      if rawAmount.eqZero then none
      else
        let amount := if crDr = "CR" then rawAmount else rawAmount.neg
        some { date := parseDDMMYYYY dateStr
               payee := cleanDescription description
               memo := ""
               amount := amount
               originalDate := dateStr }

def parseADCBCreditCard (content : String) : ParseResult :=
  let lines := prepLines content
  match adcbCreditScan lines with
  | (metadata, none) =>
    { bankName := "ADCB", statementType := "Credit Card Statement", transactions := []
      metadata := metadata
      errors := ["Could not find header row in ADCB credit card statement"] }
  | (metadata, some afterHeader) =>
    { bankName := "ADCB", statementType := "Credit Card Statement"
      transactions := afterHeader.filterMap adcbCreditRow
      metadata := metadata
      errors := [] }

/-! ## Layout reconstructor (`extractTextFromPDF` in `enbd.ts`) -/

/-- One positioned text fragment as delivered by the text-extraction
service: `item.transform[4]`, `item.transform[5]`, `item.str`. -/
structure InputItem where
  x : ℚ
  y : ℚ
  str : String
deriving DecidableEq, Repr

/-- `Math.round`: half-way cases round toward positive infinity. -/
def jsRound (q : ℚ) : ℤ :=
  ⌊q + 1 / 2⌋

/-- A fragment after the filter/round step of the per-page loop. -/
structure RawItem where
  x : ℚ
  y : ℤ
  text : String
deriving DecidableEq, Repr

/-- The merged-line clusters; the source drops the `y` of each member when
pushing `{x: item.x, text: item.text}`, which does not affect any later
step (only `x` and `text` are read), so members are kept whole here to let
the invariants mention their `y`. -/
structure LineCluster where
  y : ℤ
  items : List RawItem
deriving DecidableEq, Repr

def Y_TOLERANCE : ℤ := 4

/-- `mergedLines.find(l => Math.abs(l.y - item.y) <= Y_TOLERANCE)` followed by
push-or-append: the fragment joins the first cluster within tolerance of the
cluster's founding `y`, else opens a new cluster at its own `y`. -/
def insertItem : List LineCluster → RawItem → List LineCluster
  | [], it => [⟨it.y, [it]⟩]
  | c :: cs, it =>
    if (c.y - it.y).natAbs ≤ Y_TOLERANCE.natAbs then ⟨c.y, c.items ++ [it]⟩ :: cs
    else c :: insertItem cs it

def buildClusters (items : List RawItem) : List LineCluster :=
  items.foldl insertItem []

/-- `rawItems.sort((a, b) => b.y - a.y)`: stable sort, descending `y`. -/
def sortByYDesc (items : List RawItem) : List RawItem :=
  items.insertionSort (fun a b => b.y ≤ a.y)

/-- `mergedLines.sort((a, b) => b.y - a.y)`. -/
def sortClustersByYDesc (cs : List LineCluster) : List LineCluster :=
  cs.insertionSort (fun a b => b.y ≤ a.y)

/-- `line.items.sort((a, b) => a.x - b.x)`. -/
def sortByXAsc (items : List RawItem) : List RawItem :=
  items.insertionSort (fun a b => a.x ≤ b.x)

/-- The filter/round step building `rawItems`. -/
def rawItemsOf (input : List InputItem) : List RawItem :=
  (input.filter fun i => !(i.str = "" || jsTrim i.str = "")).map
    fun i => ⟨i.x, jsRound i.y, i.str⟩

/-- The clusters of one page, in final (sorted) order. -/
def pageClusters (input : List InputItem) : List LineCluster :=
  sortClustersByYDesc (buildClusters (sortByYDesc (rawItemsOf input)))

/-- The whole per-page body of `extractTextFromPDF`: reconstructed text of
one page, lines joined by `\n`, fragments of a line joined by a space. -/
def processPage (input : List InputItem) : String :=
  joinSep "\n" ((pageClusters input).map fun c =>
    joinSep " " ((sortByXAsc c.items).map (·.text)))

/-! ## ENBD regex helpers -/

/-- `\w` of JS regexes. -/
def isWordChar (c : Char) : Bool :=
  c.isAlpha && c.toNat < 128 || c.isDigit || c == '_'

def isAmountChar (c : Char) : Bool :=
  c.isDigit || c == ','

/-- Right-to-left part of `/([\d,]+\.\d{2})(CR)?\s*$/` on the reversed
character list: strips `\s*`, the optional `CR`, then reads `\d{2}`, `.`,
and the maximal `[\d,]+` run.  Returns (amount chars, CR flag, length of the
whole match).  Because the pattern is `$`-anchored and `[\d,]`, `.` and
whitespace are disjoint classes, the leftmost-greedy JS match is exactly
this unique decomposition. -/
def tailAmountRev (rev : List Char) : Option (List Char × Bool × ℕ) :=
  let ws := rev.takeWhile isWsChar
  let rev₁ := rev.drop ws.length
  let (isCR, rev₂) : Bool × List Char :=
    match rev₁ with
    | 'R' :: 'C' :: rest => (true, rest)
    | _ => (false, rev₁)
  match rev₂ with
  | d1 :: d2 :: '.' :: rest =>
    if d1.isDigit && d2.isDigit then
      let ds := rest.takeWhile isAmountChar
      if ds.isEmpty then none
      else
        some (ds.reverse ++ ['.', d2, d1],
          isCR,
          ws.length + (if isCR then 2 else 0) + 3 + ds.length)
    else none
  | _ => none

/-- `/([\d,]+\.\d{2})(CR)?\s*$/` on a string: the trailing amount token. -/
def tailAmount (s : String) : Option (String × Bool) :=
  (tailAmountRev s.data.reverse).map fun (cs, cr, _) => (⟨cs⟩, cr)

/-- `description.replace(/([\d,]+\.\d{2})(CR)?\s*$/, '')`. -/
def stripTailAmount (s : String) : String :=
  match tailAmountRev s.data.reverse with
  | some (_, _, n) => ⟨(s.data.reverse.drop n).reverse⟩
  | none => s

/-- `^\d{2}\/\d{2}\/\d{4}` as a prefix (the fallback's `dateMatch`),
returning the 10 matched characters. -/
def leadDDMMYYYY (l : List Char) : Option String :=
  match l with
  | a :: b :: s1 :: c :: d :: s2 :: e :: f :: g :: h :: _ =>
    if a.isDigit && b.isDigit && s1 == '/' && c.isDigit && d.isDigit && s2 == '/' &&
        e.isDigit && f.isDigit && g.isDigit && h.isDigit then
      some ⟨[a, b, s1, c, d, s2, e, f, g, h]⟩
    else none
  | _ => none

/-! ## ENBD shared helpers (`parseMonthDate`, `cleanENBDDescription`) -/

/-- The month-abbreviation table of `parseMonthDate`. -/
def monthNum (m : String) : Option String :=
  (([("jan", "01"), ("feb", "02"), ("mar", "03"), ("apr", "04"),
     ("may", "05"), ("jun", "06"), ("jul", "07"), ("aug", "08"),
     ("sep", "09"), ("oct", "10"), ("nov", "11"), ("dec", "12")] :
    List (String × String)).lookup m)

/-- Attempt `(\d{1,2})\s+(\w{3})\s+(\d{4})` at the start of `l` (the greedy
two-digit day is tried before the one-digit day; `\s` and `\d`/`\w` are
disjoint so the whitespace runs are maximal). -/
def monthDateCont (l : List Char) : Option (List Char × List Char) :=
  let ws₁ := l.takeWhile isWsChar
  if ws₁.isEmpty then none
  else
    match l.drop ws₁.length with
    | a :: b :: c :: rest =>
      if isWordChar a && isWordChar b && isWordChar c then
        let ws₂ := rest.takeWhile isWsChar
        if ws₂.isEmpty then none
        else
          match rest.drop ws₂.length with
          | y1 :: y2 :: y3 :: y4 :: _ =>
            if y1.isDigit && y2.isDigit && y3.isDigit && y4.isDigit then
              some ([a, b, c], [y1, y2, y3, y4])
            else none
          | _ => none
      else none
    | _ => none

def monthDateAttempt (l : List Char) : Option (List Char × List Char × List Char) :=
  match l with
  | d1 :: d2 :: rest =>
    if d1.isDigit && d2.isDigit then
      match monthDateCont rest with
      | some (mon, year) => some ([d1, d2], mon, year)
      | none => none
    else if d1.isDigit then
      match monthDateCont (d2 :: rest) with
      | some (mon, year) => some ([d1], mon, year)
      | none => none
    else none
  | [_] => none
  | [] => none

/-- Leftmost match of `(\d{1,2})\s+(\w{3})\s+(\d{4})`. -/
def monthDateScan : List Char → Option (List Char × List Char × List Char)
  | [] => none
  | c :: rest =>
    match monthDateAttempt (c :: rest) with
    | some g => some g
    | none => monthDateScan rest

/-- `parseMonthDate` from `enbd.ts`. -/
def parseMonthDate (dateStr : String) : String :=
  match monthDateScan dateStr.data with
  | none => dateStr
  | some (day, mon, year) =>
    match monthNum (jsToLower ⟨mon⟩) with
    | none => dateStr
    | some mm => (⟨year⟩ : String) ++ "-" ++ mm ++ "-" ++ padStartTwo ⟨day⟩

/-- `replace(/\bARE\s*$/, '')`: the pattern can only match the final `ARE`
before the trailing whitespace, with a word boundary in front. -/
def stripTrailingARE (l : List Char) : List Char :=
  let rev := l.reverse
  let ws := rev.takeWhile isWsChar
  match rev.drop ws.length with
  | 'E' :: 'R' :: 'A' :: rest =>
    match rest with
    | [] => []
    | b :: _ => if isWordChar b then l else rest.reverse
  | _ => l

/-- `replace(/\bABUDHABI\b/gi, 'ABU DHABI')`: scan left to right, replacing
every boundary-delimited case-insensitive occurrence; scanning resumes after
the matched characters.  The fuel is an upper bound on the scanned length. -/
def abuDhabiAux : ℕ → Bool → List Char → List Char
  | 0, _, l => l
  | _ + 1, _, [] => []
  | fuel + 1, prevWord, c :: rest =>
    let pat := "abudhabi".data
    let matched :=
      !prevWord &&
      startsWithChars pat ((c :: rest).map Char.toLower) &&
      (match rest.drop 7 with
       | [] => true
       | d :: _ => !isWordChar d)
    if matched then
      "ABU DHABI".data ++ abuDhabiAux fuel true (rest.drop 7)
    else
      c :: abuDhabiAux fuel (isWordChar c) rest

def replaceAbuDhabi (l : List Char) : List Char :=
  abuDhabiAux l.length false l

/-- `cleanENBDDescription` from `enbd.ts`. -/
def cleanENBDDescription (desc : String) : String :=
  if desc = "" then ""
  else jsTrim ⟨replaceAbuDhabi (stripTrailingARE (collapseWs desc).data)⟩

/-! ## ENBD credit card extractor (`parseENBDCreditCard`) -/

/-- The primary pattern
`/^(\d{2}\/\d{2}\/\d{4})\s+(\d{2}\/\d{2}\/\d{4})\s+(.+?)\s+([\d,]+\.\d{2})(CR)?\s*$/`.
Returns (transDate, description, amountStr, crFlag).  With the `$` anchor the
lazy `(.+?)` resolves to: the amount is the trailing amount token, the
separating `\s+` is the whole whitespace run before it, and the description
is everything in between (nonempty). -/
def enbdPrimaryMatch (line : String) : Option (String × String × String × Bool) :=
  match leadDDMMYYYY line.data with
  | none => none
  | some date1 =>
    let l₁ := line.data.drop 10
    let ws₁ := l₁.takeWhile isWsChar
    if ws₁.isEmpty then none
    else
      match leadDDMMYYYY (l₁.drop ws₁.length) with
      | none => none
      | some _ =>
        let l₂ := (l₁.drop ws₁.length).drop 10
        let ws₂ := l₂.takeWhile isWsChar
        if ws₂.isEmpty then none
        else
          let rest := l₂.drop ws₂.length
          match tailAmountRev rest.reverse with
          | none => none
          | some (amountCs, cr, n) =>
            let beforeRev := rest.reverse.drop n
            let wsRun := beforeRev.takeWhile isWsChar
            if wsRun.isEmpty then none
            else
              let desc := (beforeRev.drop wsRun.length).reverse
              if desc.isEmpty then none
              else some (date1, ⟨desc⟩, ⟨amountCs⟩, cr)

/-- The FX-rate memo capture: `lines[i+1].trim()` when it starts with
`(1 AED =` or `(1 USD =`. -/
def enbdMemoOf (lines : List String) (i : ℕ) : String :=
  if i + 1 < lines.length then
    let next := jsTrim (lines.getD (i + 1) "")
    if jsStartsWith "(1 AED =" next || jsStartsWith "(1 USD =" next then next else ""
  else ""

/-- One iteration of the primary loop of `parseENBDCreditCard`. -/
def enbdPrimaryLine (lines : List String) (i : ℕ) : Option Transaction :=
  let line := jsTrim (lines.getD i "")
  match enbdPrimaryMatch line with
  | none => none
  | some (transDate, description, amountStr, crFlag) =>
    if jsIncludes description "Transaction Date" ||
        jsIncludes description "Posting Date" ||
        jsIncludes description "Previous Statement" then none
    else
      match parseFloatJs (stripCommas amountStr) with
      | .nan => none
      | .num q =>
        if q = 0 then none
        else
          some { date := parseDDMMYYYY transDate
                 payee := cleanENBDDescription description
                 memo := enbdMemoOf lines i
                 amount := .num (if crFlag then q else -q)
                 originalDate := transDate }

/-- `/^(\d{2}\/\d{2}\/\d{4})\s+/`: the fallback's second-date check,
returning the length of the whole match (10 + the greedy whitespace run). -/
def leadDateWs (l : List Char) : Option ℕ :=
  match leadDDMMYYYY l with
  | none => none
  | some _ =>
    let ws := (l.drop 10).takeWhile isWsChar
    if ws.isEmpty then none else some (10 + ws.length)

/-- One iteration of the loop of `parseENBDCreditCardFallback`. -/
def enbdFallbackLine (lines : List String) (i : ℕ) : Option Transaction :=
  let line := jsTrim (lines.getD i "")
  match leadDDMMYYYY line.data with
  | none => none
  | some dateStr =>
    match tailAmount line with
    | none => none
    | some (amountStr, isCredit) =>
      let restAfterFirstDate := jsTrim ⟨line.data.drop 10⟩
      let description₀ : String :=
        match leadDateWs restAfterFirstDate.data with
        | some n => ⟨restAfterFirstDate.data.drop n⟩
        | none => restAfterFirstDate
      let description := jsTrim (stripTailAmount description₀)
      if description = "" || jsIncludes description "Transaction Date" ||
          jsIncludes description "Posting Date" then none
      else
        match parseFloatJs (stripCommas amountStr) with
        | .nan => none
        | .num q =>
          if q = 0 then none
          else
            some { date := parseDDMMYYYY dateStr
                   payee := cleanENBDDescription description
                   memo := enbdMemoOf lines i
                   amount := .num (if isCredit then q else -q)
                   originalDate := dateStr }

/-- The page/line double loop of the primary pass. -/
def enbdCreditTransactions (pages : List String) : List Transaction :=
  pages.flatMap fun pageText =>
    let lines := splitChar '\n' pageText
    (List.range lines.length).filterMap (enbdPrimaryLine lines)

/-- `parseENBDCreditCardFallback` (it appends into the same array, which at
that point is empty, so its pushes are the whole result). -/
def enbdCreditFallbackTransactions (pages : List String) : List Transaction :=
  pages.flatMap fun pageText =>
    let lines := splitChar '\n' pageText
    (List.range lines.length).filterMap (enbdFallbackLine lines)

/-- `/Card Number[:\s]*([\dX\s*]+)/` and
`/Statement Period[:\s]*(.+?)(?:\n|$)/` on the full text.  The `.`-class of
the period capture excludes line terminators, so with the terminating
`(?:\n|$)` the lazy group is exactly the run up to the next newline. -/
def enbdCreditMetadata (fullText : String) : List (String × String) :=
  (match captureAfterLabel "Card Number".data
      (fun c => c == ':' || isWsChar c)
      (fun c => c.isDigit || c == 'X' || isWsChar c || c == '*') fullText.data with
   | some m => [("cardNumber", jsTrim m)]
   | none => []) ++
  (match captureAfterLabel "Statement Period".data
      (fun c => c == ':' || isWsChar c)
      (fun c => !(c == '\n' || c == '\r')) fullText.data with
   | some m => [("period", jsTrim m)]
   | none => [])

/-! ## File model and the pdf text-extraction service -/

/-- One input file together with the outcomes of the external services the
orchestrator and extractors call on it.  `text` is `File.text()`;
`pdfFirstPageItems` is the item-string list of page 1 obtained by
`parsePDFFile` for detection; `pdfPages` is the per-page positioned-fragment
collection obtained by `extractTextFromPDF`.  A `.error` value means that
service call faults (rejects). -/
structure FileModel where
  name : String
  text : Except String String
  pdfFirstPageItems : Except String (List String)
  pdfPages : Except String (List (List InputItem))

/-- `extractTextFromPDF`: one reconstructed string per page. -/
def extractTextFromPDF (f : FileModel) : Except String (List String) :=
  f.pdfPages.map fun pages => pages.map processPage

def parseENBDCreditCard (f : FileModel) : ParseResult :=
  match extractTextFromPDF f with
  | .error e =>
    { bankName := "Emirates NBD", statementType := "Credit Card Statement"
      transactions := [], metadata := []
      errors := ["PDF parsing error: " ++ e] }
  | .ok pages =>
    let fullText := joinSep "\n" pages
    let primary := enbdCreditTransactions pages
    let txs := if primary.isEmpty then enbdCreditFallbackTransactions pages else primary
    { bankName := "Emirates NBD", statementType := "Credit Card Statement"
      transactions := txs
      metadata := enbdCreditMetadata fullText
      errors := [] }

/-! ## ENBD account extractor (`parseENBDAccount`) -/

/-- One match of the pattern `-?[\d,]+\.\d{2}` attempted at the current position:
optional minus, a maximal `[\d,]+` run, a dot, exactly two digits.  The
classes `[\d,]`, `.` are disjoint, so the greedy run needs no backtracking. -/
def amtAt (l : List Char) : Option (List Char) :=
  let (neg, l₁) : Bool × List Char :=
    match l with
    | '-' :: rest => (true, rest)
    | _ => (false, l)
  let run := l₁.takeWhile isAmountChar
  if run.isEmpty then none
  else
    match l₁.drop run.length with
    | '.' :: d1 :: d2 :: _ =>
      if d1.isDigit && d2.isDigit then
        some ((if neg then ['-'] else []) ++ run ++ ['.', d1, d2])
      else none
    | _ => none

structure AmtMatch where
  value : JsNum
  index : ℕ
  length : ℕ
deriving DecidableEq, Repr

/-- The `while ((match = amountRegex.exec(rest)) !== null)` loop: repeated
leftmost matching, resuming right after each match.  Fuel-driven recursion
(the fuel is the string length; every step consumes at least one character). -/
def scanAmountsAux : ℕ → List Char → ℕ → List AmtMatch
  | 0, _, _ => []
  | _ + 1, [], _ => []
  | fuel + 1, c :: rest, idx =>
    match amtAt (c :: rest) with
    | some m =>
      ⟨parseFloatJs (stripCommas ⟨m⟩), idx, m.length⟩ ::
        scanAmountsAux fuel ((c :: rest).drop m.length) (idx + m.length)
    | none => scanAmountsAux fuel rest (idx + 1)

def scanAmounts (s : String) : List AmtMatch :=
  scanAmountsAux s.data.length s.data 0

/-- The twelve month alternatives of the ENBD account date patterns,
compared case-insensitively. -/
def enbdMonthTags : List String :=
  ["jan", "feb", "mar", "apr", "may", "jun", "jul", "aug", "sep", "oct", "nov", "dec"]

/-- `/^\s*(\d{1,2}\s+(?:Jan|...|Dec)\s+\d{4})\s+/i`: the dated-row anchor of
`parseENBDAccount`.  Returns (the group-1 text, the full match length
including the leading `\s*` and the trailing `\s+`). -/
def enbdAccountDate (l : List Char) : Option (String × ℕ) :=
  let ws₀ := l.takeWhile isWsChar
  let l₁ := l.drop ws₀.length
  let ds := l₁.takeWhile Char.isDigit
  if ds.isEmpty || 2 < ds.length then none
  else
    let l₂ := l₁.drop ds.length
    let ws₁ := l₂.takeWhile isWsChar
    if ws₁.isEmpty then none
    else
      match l₂.drop ws₁.length with
      | a :: b :: c :: rest =>
        if enbdMonthTags.contains (jsToLower ⟨[a, b, c]⟩) then
          let ws₂ := rest.takeWhile isWsChar
          if ws₂.isEmpty then none
          else
            match rest.drop ws₂.length with
            | y1 :: y2 :: y3 :: y4 :: rest₂ =>
              if y1.isDigit && y2.isDigit && y3.isDigit && y4.isDigit then
                let ws₃ := rest₂.takeWhile isWsChar
                if ws₃.isEmpty then none
                else
                  let group := ds ++ ws₁ ++ [a, b, c] ++ ws₂ ++ [y1, y2, y3, y4]
                  some (⟨group⟩, ws₀.length + group.length + ws₃.length)
              else none
            | _ => none
        else none
      | _ => none

/-- `/^\s*\d{1,2}\s+(?:Jan|...|Dec)\s+\d{4}/i`: the continuation-breaking
date test (same pattern without the trailing `\s+`). -/
def enbdAccountDateTest (l : List Char) : Bool :=
  let ws₀ := l.takeWhile isWsChar
  let l₁ := l.drop ws₀.length
  let ds := l₁.takeWhile Char.isDigit
  if ds.isEmpty || 2 < ds.length then false
  else
    let l₂ := l₁.drop ds.length
    let ws₁ := l₂.takeWhile isWsChar
    if ws₁.isEmpty then false
    else
      match l₂.drop ws₁.length with
      | a :: b :: c :: rest =>
        if enbdMonthTags.contains (jsToLower ⟨[a, b, c]⟩) then
          let ws₂ := rest.takeWhile isWsChar
          if ws₂.isEmpty then false
          else
            match rest.drop ws₂.length with
            | y1 :: y2 :: y3 :: y4 :: _ =>
              y1.isDigit && y2.isDigit && y3.isDigit && y4.isDigit
            | _ => false
        else false
      | _ => false

/-- `/^\d+\s*\/\s*\d+$/` (page-number footer). -/
def isPageNum (s : String) : Bool :=
  let l := s.data
  let d1 := l.takeWhile Char.isDigit
  if d1.isEmpty then false
  else
    let l₁ := l.drop d1.length
    let ws₁ := l₁.takeWhile isWsChar
    match l₁.drop ws₁.length with
    | '/' :: r =>
      let ws₂ := r.takeWhile isWsChar
      let r₁ := r.drop ws₂.length
      let d2 := r₁.takeWhile Char.isDigit
      !d2.isEmpty && (r₁.drop d2.length).isEmpty
    | _ => false

/-- `/([\d,]+\.\d{2})\s*(?:Cr|Dr)\s*$/i` as a boolean test. -/
def balanceTailCheck (s : String) : Bool :=
  let rev := s.data.reverse
  let rev₁ := rev.dropWhile isWsChar
  match rev₁ with
  | r :: cd :: rest =>
    if r.toLower == 'r' && (cd.toLower == 'c' || cd.toLower == 'd') then
      match rest.dropWhile isWsChar with
      | d1 :: d2 :: '.' :: rest₃ =>
        d1.isDigit && d2.isDigit && !(rest₃.takeWhile isAmountChar).isEmpty
      | _ => false
    else false
  | _ => false

/-- The continuation-line loop: append trimmed follow-up lines to the
description until a dated row, a blank line, or a footer pattern. -/
def gatherCont (desc : String) : List String → String
  | [] => desc
  | nl :: rest =>
    if enbdAccountDateTest nl.data then desc
    else
      let trimmed := jsTrim nl
      if trimmed = "" || jsIncludes trimmed "STATEMENT OF ACCOUNT" ||
          jsIncludes trimmed "electronically generated" ||
          jsIncludes trimmed "Need help" ||
          jsIncludes trimmed "Emirates NBD" ||
          isPageNum trimmed then desc
      else if jsStartsWith "This is an" trimmed then desc
      else gatherCont (desc ++ " " ++ trimmed) rest

/-- One iteration of the dated-row loop of `parseENBDAccount`.  (The outer
loop visits every line; continuation lines fail the date anchor on their own
iteration, so consuming them inside `gatherCont` matches the source.) -/
def enbdAccountLine (lines : List String) (i : ℕ) : Option Transaction :=
  let line := lines.getD i ""
  match enbdAccountDate line.data with
  | none => none
  | some (dateGroup, mlen) =>
    let dateStr := jsTrim dateGroup
    let rest : String := ⟨line.data.drop mlen⟩
    match scanAmounts rest with
    | [] => none
    | a0 :: amtRest =>
      let description := jsTrim ⟨rest.data.take a0.index⟩
      if description = "" || description = "Description" ||
          jsIncludes description "Date" then none
      else
        let fullDescription := gatherCont description (lines.drop (i + 1))
        if amtRest.isEmpty && balanceTailCheck rest then none
        else
          let amount := a0.value
          if amount.isNan || amount.eqZero then none
          else
            some { date := parseMonthDate dateStr
                   payee := cleanENBDDescription fullDescription
                   memo := ""
                   amount := amount
                   originalDate := dateStr }

def enbdAccountTransactions (pages : List String) : List Transaction :=
  pages.flatMap fun pageText =>
    let lines := splitChar '\n' pageText
    (List.range lines.length).filterMap (enbdAccountLine lines)

/-- Case-insensitive prefix test (for the `/i` period pattern). -/
def ciStartsWith (patLower : List Char) (l : List Char) : Bool :=
  startsWithChars patLower (l.map Char.toLower)

/-- `/IBAN\s*(AE[\d]+)/`: scan for the literal, skip whitespace, require
`AE` followed by at least one digit. -/
def ibanCaptureAux : List Char → Option String
  | [] => none
  | c :: rest =>
    if startsWithChars "IBAN".data (c :: rest) then
      let after := (c :: rest).drop 4
      let l₁ := after.dropWhile isWsChar
      match l₁ with
      | 'A' :: 'E' :: r =>
        let ds := r.takeWhile Char.isDigit
        if ds.isEmpty then ibanCaptureAux rest else some ⟨'A' :: 'E' :: ds⟩
      | _ => ibanCaptureAux rest
    else ibanCaptureAux rest

/-- The continuation `\s+to\s+(.+?)(?:\n|$)` of the statement-period
pattern, case-insensitively; returns the second group. -/
def enbdPeriodCont (l : List Char) : Option (List Char) :=
  let ws₁ := l.takeWhile isWsChar
  if ws₁.isEmpty then none
  else
    match l.drop ws₁.length with
    | t :: o :: rest =>
      if t.toLower == 't' && o.toLower == 'o' then
        let ws₂ := rest.takeWhile isWsChar
        if ws₂.isEmpty then none
        else
          let p2 := (rest.drop ws₂.length).takeWhile fun c => !(c == '\n' || c == '\r')
          if p2.isEmpty then none else some p2
      else none
    | _ => none

/-- Grow the lazy first group one character at a time (it cannot cross a
line terminator) until the ` to ` continuation matches. -/
def tryPeriodP1 (p1rev : List Char) : List Char → Option (List Char × List Char)
  | [] => none
  | c :: rest =>
    if c == '\n' || c == '\r' then none
    else
      match enbdPeriodCont rest with
      | some p2 => some ((c :: p1rev).reverse, p2)
      | none => tryPeriodP1 (c :: p1rev) rest

/-- `/STATEMENT OF ACCOUNT FOR THE PERIOD OF\s+(.+?)\s+to\s+(.+?)(?:\n|$)/i`.
(The greedy `\s+` after the label is taken maximally; the unreachable
re-shortening of that run is not modelled.) -/
def enbdPeriodScan : List Char → Option (List Char × List Char)
  | [] => none
  | c :: rest =>
    let label := "statement of account for the period of".data
    if ciStartsWith label (c :: rest) then
      let after := (c :: rest).drop label.length
      let ws := after.takeWhile isWsChar
      if ws.isEmpty then enbdPeriodScan rest
      else
        match tryPeriodP1 [] (after.drop ws.length) with
        | some r => some r
        | none => enbdPeriodScan rest
    else enbdPeriodScan rest

/-- `/Currency\s+(AED|USD|EUR|GBP)/`. -/
def currencyCaptureAux : List Char → Option String
  | [] => none
  | c :: rest =>
    if startsWithChars "Currency".data (c :: rest) then
      let after := (c :: rest).drop 8
      let ws := after.takeWhile isWsChar
      if ws.isEmpty then currencyCaptureAux rest
      else
        let l₁ := after.drop ws.length
        match (["AED", "USD", "EUR", "GBP"].find? fun t => startsWithChars t.data l₁) with
        | some t => some t
        | none => currencyCaptureAux rest
    else currencyCaptureAux rest

def enbdAccountMetadata (fullText : String) : List (String × String) :=
  (match captureAfterLabel "Account No.".data isWsChar Char.isDigit fullText.data with
   | some m => [("accountNumber", jsTrim m)]
   | none => []) ++
  (match ibanCaptureAux fullText.data with
   | some m => [("iban", jsTrim m)]
   | none => []) ++
  (match enbdPeriodScan fullText.data with
   | some (p1, p2) =>
     [("period", jsTrim ⟨p1⟩ ++ " to " ++ jsTrim ⟨p2⟩)]
   | none => []) ++
  (match currencyCaptureAux fullText.data with
   | some m => [("currency", jsTrim m)]
   | none => [])

def parseENBDAccount (f : FileModel) : ParseResult :=
  match extractTextFromPDF f with
  | .error e =>
    { bankName := "Emirates NBD", statementType := "Account Statement"
      transactions := [], metadata := []
      errors := ["PDF parsing error: " ++ e] }
  | .ok pages =>
    let fullText := joinSep "\n" pages
    { bankName := "Emirates NBD", statementType := "Account Statement"
      transactions := enbdAccountTransactions pages
      metadata := enbdAccountMetadata fullText
      errors := [] }

/-! ## Orchestrator (`index.ts`) -/

inductive ENBDType where
  | account
  | creditcard
deriving DecidableEq, Repr

def detectENBDType (text : String) : Option ENBDType :=
  if jsIncludes text "Credit Card Statement" || jsIncludes text "كشف حساب بطاقة" then
    some .creditcard
  else if jsIncludes text "Account Statement" || jsIncludes text "STATEMENT OF ACCOUNT" then
    some .account
  else none

def parseCSVFile (f : FileModel) : Except String ParseResult :=
  match f.text with
  | .error e => .error e
  | .ok content =>
    match detectADCBType content with
    | some .account => .ok (parseADCBAccount content)
    | some .creditcard => .ok (parseADCBCreditCard content)
    | none =>
      .ok { bankName := "Unknown", statementType := "Unknown"
            transactions := [], metadata := []
            errors := ["Could not detect CSV statement type. Currently supports ADCB account and credit card statements."] }

def parsePDFFile (f : FileModel) : Except String ParseResult :=
  match f.pdfFirstPageItems with
  | .error e => .error e
  | .ok items =>
    let firstPageText := joinSep " " items
    match detectENBDType firstPageText with
    | some .creditcard => .ok (parseENBDCreditCard f)
    | some .account => .ok (parseENBDAccount f)
    | none =>
      .ok { bankName := "Unknown", statementType := "Unknown"
            transactions := [], metadata := []
            errors := ["Could not detect PDF statement type. Currently supports Emirates NBD credit card and account statements."] }

def parseFile (f : FileModel) : Except String ParseResult :=
  let fileName := jsToLower f.name
  if jsEndsWith ".csv" fileName then parseCSVFile f
  else if jsEndsWith ".pdf" fileName then parsePDFFile f
  else
    .ok { bankName := "Unknown", statementType := "Unknown"
          transactions := [], metadata := []
          errors := ["Unsupported file type: " ++ fileName ++ ". Please upload a CSV or PDF file."] }

/-! ## Export serializers (`ynab-export`, both observed variants) -/

inductive YNABFormat where
  | inflowOutflow
  | amount
deriving DecidableEq, Repr

/-- JS `Number.prototype.toFixed(2)`: nearest multiple of `1/100`, ties to
the larger candidate (exact for the cent-valued rationals of this code; the
`-0.00` corner of JS is not reproduced and never reached). -/
def toFixed2 (x : JsNum) : String :=
  match x with
  | .nan => "NaN"
  | .num q =>
    let n : ℤ := ⌊q * 100 + 1 / 2⌋
    let m := n.natAbs
    (if n < 0 then "-" else "") ++ Nat.repr (m / 100) ++ "." ++
      (if m % 100 < 10 then "0" else "") ++ Nat.repr (m % 100)

/-! The quoting serializer variant: the `ynab-export` shipped next to
`enbd.ts` ("All fields are double-quoted. Dates use DD/MM/YYYY.
Inflow/Outflow use \"0\" for the empty side (not blank).") -/
namespace YnabQuoted

def escQ : List Char → List Char
  | [] => []
  | c :: r => if c == '"' then '"' :: '"' :: escQ r else c :: escQ r

/-- `q`: always quote, inner quotes doubled. -/
def q (value : String) : String :=
  "\"" ++ (⟨escQ value.data⟩ : String) ++ "\""

/-- `formatDate`: ISO `YYYY-MM-DD` to `DD/MM/YYYY`. -/
def formatDate (isoDate : String) : String :=
  match splitChar '-' isoDate with
  | [yyyy, mm, dd] => dd ++ "/" ++ mm ++ "/" ++ yyyy
  | _ => isoDate

/-- `replace(/\.?0+$/, '')`: drop the trailing zero run and, when it
directly follows the decimal point, the point too. -/
def stripFixedZeros (s : String) : String :=
  let rev := s.data.reverse
  let zs := rev.takeWhile (· == '0')
  if zs.isEmpty then s
  else
    match rev.drop zs.length with
    | '.' :: rest => ⟨rest.reverse⟩
    | rest => ⟨rest.reverse⟩

/-- `formatAmount`: absolute value, two decimals, trailing zeros stripped. -/
def formatAmount (n : JsNum) : String :=
  let stripped := stripFixedZeros (toFixed2 n.abs)
  if stripped = "" then "0" else stripped

def toYNABCSV (transactions : List Transaction) (format : YNABFormat) : String :=
  match format with
  | .inflowOutflow =>
    let header :=
      q "Date" ++ "," ++ q "Payee" ++ "," ++ q "Memo" ++ "," ++ q "Outflow" ++ "," ++ q "Inflow"
    let rows := transactions.map fun tx =>
      let date := formatDate tx.date
      let outflow := if tx.amount.ltZero then formatAmount tx.amount else "0"
      let inflow := if tx.amount.gtZero then formatAmount tx.amount else "0"
      q date ++ "," ++ q tx.payee ++ "," ++ q tx.memo ++ "," ++ q outflow ++ "," ++ q inflow
    joinSep "\n" (header :: rows)
  | .amount =>
    let header := q "Date" ++ "," ++ q "Payee" ++ "," ++ q "Memo" ++ "," ++ q "Amount"
    let rows := transactions.map fun tx =>
      let date := formatDate tx.date
      let sign := if tx.amount.ltZero then "-" else ""
      let amount := sign ++ formatAmount tx.amount
      q date ++ "," ++ q tx.payee ++ "," ++ q tx.memo ++ "," ++ q amount
    joinSep "\n" (header :: rows)

end YnabQuoted

/-! The permissive serializer variant (`src/client/src/lib/ynab-export.ts`):
conditional quoting, `MM/DD/YYYY` dates, blank unused column. -/
namespace YnabPlain

def escapeCSV (value : String) : String :=
  if jsIncludes value "," || jsIncludes value "\"" || jsIncludes value "\n" then
    "\"" ++ (⟨YnabQuoted.escQ value.data⟩ : String) ++ "\""
  else value

/-- `formatDate`: ISO `YYYY-MM-DD` to `MM/DD/YYYY`. -/
def formatDate (isoDate : String) : String :=
  match splitChar '-' isoDate with
  | [yyyy, mm, dd] => mm ++ "/" ++ dd ++ "/" ++ yyyy
  | _ => isoDate

def toYNABCSV (transactions : List Transaction) (format : YNABFormat) : String :=
  match format with
  | .inflowOutflow =>
    let header := "Date,Payee,Memo,Outflow,Inflow"
    let rows := transactions.map fun tx =>
      let date := formatDate tx.date
      let payee := escapeCSV tx.payee
      let memo := escapeCSV tx.memo
      let outflow := if tx.amount.ltZero then toFixed2 tx.amount.abs else ""
      let inflow := if tx.amount.gtZero then toFixed2 tx.amount else ""
      date ++ "," ++ payee ++ "," ++ memo ++ "," ++ outflow ++ "," ++ inflow
    joinSep "\n" (header :: rows)
  | .amount =>
    let header := "Date,Payee,Memo,Amount"
    let rows := transactions.map fun tx =>
      let date := formatDate tx.date
      let payee := escapeCSV tx.payee
      let memo := escapeCSV tx.memo
      date ++ "," ++ payee ++ "," ++ memo ++ "," ++ toFixed2 tx.amount
    joinSep "\n" (header :: rows)

end YnabPlain

/-! # Theorems -/

/-! ## C1: the zero-amount invariant -/

/-- A parsed amount that is a genuine nonnegative number. -/
def jsNonneg : JsNum → Bool
  | .nan => false
  | .num q => 0 ≤ q

/-- Hypothesis for the amended C1: every line after the header row of an
ADCB account statement carries debit/credit fields that parse to
nonnegative numbers (the shape real ADCB debit/credit columns always
have). -/
def adcbAmountsNonneg (content : String) : Prop :=
  ∀ line ∈ ((adcbAccountScan (prepLines content)).2.getD []),
    jsNonneg (parseAmount ((parseCSVLine line).getD 4 "")) ∧
    jsNonneg (parseAmount ((parseCSVLine line).getD 5 ""))

instance (content : String) : Decidable (adcbAmountsNonneg content) := by
  unfold adcbAmountsNonneg
  infer_instance

lemma adcbAccountRow_amount_ne_zero {line : String} {tx : Transaction}
    (hd : jsNonneg (parseAmount ((parseCSVLine line).getD 4 "")) = true)
    (hc : jsNonneg (parseAmount ((parseCSVLine line).getD 5 "")) = true)
    (h : adcbAccountRow line = some tx) : tx.amount ≠ JsNum.num 0 := by
  simp only [adcbAccountRow] at h
  split at h
  · exact absurd h (by simp)
  · split at h
    · exact absurd h (by simp)
    · split at h
      · exact absurd h (by simp)
      · rename_i h1 h2 hzero
        cases h
        simp only [JsNum.eqZero, Bool.and_eq_true] at hzero
        cases hdv : parseAmount ((parseCSVLine line).getD 4 "") with
        | nan => rw [hdv] at hd; simp [jsNonneg] at hd
        | num d =>
          cases hcv : parseAmount ((parseCSVLine line).getD 5 "") with
          | nan => rw [hcv] at hc; simp [jsNonneg] at hc
          | num c =>
            rw [hdv] at hd hzero
            rw [hcv] at hc hzero
            simp only [jsNonneg, decide_eq_true_eq] at hd hc
            simp only [hdv, hcv, JsNum.gtZero, JsNum.neg]
            split
            · rename_i hgt
              simp only [ne_eq, JsNum.num.injEq]
              exact ne_of_gt (by exact_mod_cast of_decide_eq_true hgt)
            · rename_i hng
              have hgt : ¬(0 < c) := by
                intro hlt
                exact hng (by simpa using hlt)
              have hc0 : c = 0 := le_antisymm (not_lt.mp hgt) hc
              have hd0 : d ≠ 0 := by
                intro hd0
                exact hzero ⟨by simp [hd0], by simp [hc0]⟩
              simp only [ne_eq, JsNum.num.injEq, neg_eq_zero]
              exact hd0

lemma adcbCreditRow_amount_ne_zero {line : String} {tx : Transaction}
    (h : adcbCreditRow line = some tx) : tx.amount ≠ .num 0 := by
  simp only [adcbCreditRow] at h
  split at h
  · exact absurd h (by simp)
  · split at h
    · exact absurd h (by simp)
    · split at h
      · exact absurd h (by simp)
      · split at h
        · exact absurd h (by simp)
        · rename_i hzero
          cases h
          cases hra : parseAmount ((parseCSVLine line).getD 3 "") with
          | nan => simp [hra, JsNum.neg]
          | num q =>
            rw [hra] at hzero
            simp only [JsNum.eqZero, beq_iff_eq] at hzero
            have hq : q ≠ 0 := by simpa using hzero
            simp only [hra, JsNum.neg]
            split
            · simpa using hq
            · simpa using hq

lemma enbdPrimaryLine_amount_ne_zero {lines : List String} {i : ℕ} {tx : Transaction}
    (h : enbdPrimaryLine lines i = some tx) : tx.amount ≠ .num 0 := by
  simp only [enbdPrimaryLine] at h
  split at h
  · exact absurd h (by simp)
  · split at h
    · exact absurd h (by simp)
    · split at h
      · exact absurd h (by simp)
      · split at h
        · exact absurd h (by simp)
        · rename_i hq
          cases h
          simp only []
          split <;> simpa using hq

lemma enbdFallbackLine_amount_ne_zero {lines : List String} {i : ℕ} {tx : Transaction}
    (h : enbdFallbackLine lines i = some tx) : tx.amount ≠ .num 0 := by
  simp only [enbdFallbackLine] at h
  split at h
  · exact absurd h (by simp)
  · split at h
    · exact absurd h (by simp)
    · split at h
      · exact absurd h (by simp)
      · split at h
        · exact absurd h (by simp)
        · split at h
          · exact absurd h (by simp)
          · rename_i hq
            cases h
            simp only []
            split <;> simpa using hq

lemma enbdAccountLine_amount_ne_zero {lines : List String} {i : ℕ} {tx : Transaction}
    (h : enbdAccountLine lines i = some tx) : tx.amount ≠ .num 0 := by
  simp only [enbdAccountLine] at h
  split at h
  · exact absurd h (by simp)
  · split at h
    · exact absurd h (by simp)
    · split at h
      · exact absurd h (by simp)
      · split at h
        · exact absurd h (by simp)
        · split at h
          · exact absurd h (by simp)
          · rename_i hnz
            cases h
            simp only [Bool.or_eq_true, not_or] at hnz
            obtain ⟨hnan, hzero⟩ := hnz
            cases hv : AmtMatch.value ‹AmtMatch› with
            | nan => rw [hv] at hnan; simp [JsNum.isNan] at hnan
            | num q =>
              rw [hv] at hzero
              simp only [JsNum.eqZero, beq_iff_eq] at hzero
              simp only [hv, ne_eq, JsNum.num.injEq]
              simpa using hzero

lemma enbdCreditTransactions_amount_ne_zero {pages : List String} {tx : Transaction}
    (h : tx ∈ enbdCreditTransactions pages) : tx.amount ≠ .num 0 := by
  simp only [enbdCreditTransactions, List.mem_flatMap, List.mem_filterMap] at h
  obtain ⟨page, _, i, _, hrow⟩ := h
  exact enbdPrimaryLine_amount_ne_zero hrow

lemma enbdCreditFallbackTransactions_amount_ne_zero {pages : List String} {tx : Transaction}
    (h : tx ∈ enbdCreditFallbackTransactions pages) : tx.amount ≠ .num 0 := by
  simp only [enbdCreditFallbackTransactions, List.mem_flatMap, List.mem_filterMap] at h
  obtain ⟨page, _, i, _, hrow⟩ := h
  exact enbdFallbackLine_amount_ne_zero hrow

lemma enbdAccountTransactions_amount_ne_zero {pages : List String} {tx : Transaction}
    (h : tx ∈ enbdAccountTransactions pages) : tx.amount ≠ .num 0 := by
  simp only [enbdAccountTransactions, List.mem_flatMap, List.mem_filterMap] at h
  obtain ⟨page, _, i, _, hrow⟩ := h
  exact enbdAccountLine_amount_ne_zero hrow

/-- The input refuting C1 as stated: a row with a zero debit and a credit
field that parses to a negative number is not caught by the
`debit === 0 && credit === 0` skip, yet `credit > 0` fails, so the emitted
amount is `-debit = 0`. -/
def c1CexContent : String :=
  "Account Number: 123\nPosting Date,Value Date,Ref,Description,Debit,Credit\n01/02/2024,01/02/2024,R1,X,0,-5.00"

/-- C1 counterexample: `parseADCBAccount` materializes a transaction whose
amount is exactly zero, so the claimed invariant `amount != 0` fails on the
code as written. -/
theorem C1_counterexample :
    (parseADCBAccount c1CexContent).transactions.map Transaction.amount = [JsNum.num 0] := by
  decide

/-- C1 (amended): every transaction produced by any extractor has a nonzero
amount, except that the ADCB account extractor needs the extra hypothesis
that the debit/credit fields of the rows after the header parse to
nonnegative numbers — a row with debit `0` and a negative (or unparseable)
credit yields a zero amount (see the counterexample).  The ADCB credit card
extractor, the ENBD credit card primary and fallback passes, and the ENBD
account extractor satisfy the invariant unconditionally. -/
theorem C1_amount_nonzero :
    (∀ content, adcbAmountsNonneg content →
      ∀ tx ∈ (parseADCBAccount content).transactions, tx.amount ≠ JsNum.num 0) ∧
    (∀ content, ∀ tx ∈ (parseADCBCreditCard content).transactions, tx.amount ≠ JsNum.num 0) ∧
    (∀ pages, ∀ tx ∈ enbdCreditTransactions pages, tx.amount ≠ JsNum.num 0) ∧
    (∀ pages, ∀ tx ∈ enbdCreditFallbackTransactions pages, tx.amount ≠ JsNum.num 0) ∧
    (∀ f, ∀ tx ∈ (parseENBDCreditCard f).transactions, tx.amount ≠ JsNum.num 0) ∧
    (∀ f, ∀ tx ∈ (parseENBDAccount f).transactions, tx.amount ≠ JsNum.num 0) := by
  refine ⟨?_, ?_, ?_, ?_, ?_, ?_⟩
  · intro content hnn tx htx
    simp only [parseADCBAccount] at htx
    unfold adcbAmountsNonneg at hnn
    cases hscan : adcbAccountScan (prepLines content) with
    | mk meta r =>
      cases r with
      | none => rw [hscan] at htx; simp at htx
      | some after =>
        rw [hscan] at htx hnn
        simp only [List.mem_filterMap] at htx
        obtain ⟨line, hline, hrow⟩ := htx
        obtain ⟨hd, hc⟩ := hnn line (by simpa using hline)
        exact adcbAccountRow_amount_ne_zero hd hc hrow
  · intro content tx htx
    simp only [parseADCBCreditCard] at htx
    cases hscan : adcbCreditScan (prepLines content) with
    | mk meta r =>
      cases r with
      | none => rw [hscan] at htx; simp at htx
      | some after =>
        rw [hscan] at htx
        simp only [List.mem_filterMap] at htx
        obtain ⟨line, _, hrow⟩ := htx
        exact adcbCreditRow_amount_ne_zero hrow
  · intro pages tx htx
    exact enbdCreditTransactions_amount_ne_zero htx
  · intro pages tx htx
    exact enbdCreditFallbackTransactions_amount_ne_zero htx
  · intro f tx htx
    simp only [parseENBDCreditCard] at htx
    cases hex : extractTextFromPDF f with
    | error e => rw [hex] at htx; simp at htx
    | ok pages =>
      rw [hex] at htx
      simp only [] at htx
      by_cases hempty : (enbdCreditTransactions pages).isEmpty
      · rw [if_pos hempty] at htx
        exact enbdCreditFallbackTransactions_amount_ne_zero htx
      · rw [if_neg hempty] at htx
        exact enbdCreditTransactions_amount_ne_zero htx
  · intro f tx htx
    simp only [parseENBDAccount] at htx
    cases hex : extractTextFromPDF f with
    | error e => rw [hex] at htx; simp at htx
    | ok pages =>
      rw [hex] at htx
      exact enbdAccountTransactions_amount_ne_zero htx

/-- The well-formed statement used to witness the amended C1. -/
def c1GoodContent : String :=
  "Account Number: 123\nPosting Date,Value Date,Ref,Description,Debit,Credit\n01/02/2024,01/02/2024,R1,\"Coffee Shop\",15.00,0"

def c1GoodTx : Transaction :=
  { date := "2024-02-01", payee := "Coffee Shop", memo := ""
    amount := .num (-15), originalDate := "01/02/2024" }

/-- C1 witness: the amended theorem applied at a concrete statement whose
rows have nonnegative debit/credit fields. -/
theorem C1_amount_nonzero_witness :
    adcbAmountsNonneg c1GoodContent ∧
    c1GoodTx ∈ (parseADCBAccount c1GoodContent).transactions ∧
    c1GoodTx.amount ≠ JsNum.num 0 :=
  ⟨by decide, by decide,
    C1_amount_nonzero.1 c1GoodContent (by decide) c1GoodTx (by decide)⟩

/-! ## C3: the split-inflow/outflow export scenario -/

def c3Tx : Transaction :=
  { date := "2024-02-01", payee := "Acme, Inc", memo := ""
    amount := .num (85 / 2), originalDate := "01/02/2024" }

/-- C3: exporting the single inflow transaction +42.5 / 2024-02-01 /
"Acme, Inc" / empty memo in the split-inflow/outflow convention yields
exactly the data line `"01/02/2024","Acme, Inc","","0","42.5"` after the
header: every field double-quoted, the date `DD/MM/YYYY`, the unused
outflow column the literal string `0`, trailing zeros stripped from the
amount. -/
theorem C3_export_scenario :
    YnabQuoted.toYNABCSV [c3Tx] YNABFormat.inflowOutflow =
      "\"Date\",\"Payee\",\"Memo\",\"Outflow\",\"Inflow\"\n\"01/02/2024\",\"Acme, Inc\",\"\",\"0\",\"42.5\"" := by
  decide

/-! ## C8: the ADCB account scenario and the debit/credit sign rule -/

def c8Content : String :=
  "Account Number: 123\nPosting Date,Value Date,Ref,Description,Debit,Credit\n01/02/2024,01/02/2024,R1,\"Coffee Shop\",15.00,0"

/-- C8: the scenario input is detected as an ADCB account statement and
yields exactly one transaction (date 2024-02-01, payee `Coffee Shop`,
amount −15); and in general a row accepted by the ADCB account extractor
gets amount = credit when credit > 0 and −debit otherwise. -/
theorem C8_adcb_account_scenario :
    (detectADCBType c8Content = some ADCBType.account ∧
      (parseADCBAccount c8Content).transactions =
        [{ date := "2024-02-01", payee := "Coffee Shop", memo := ""
           amount := .num (-15), originalDate := "01/02/2024" }]) ∧
    ∀ line tx, adcbAccountRow line = some tx →
      tx.amount =
        (if (parseAmount ((parseCSVLine line).getD 5 "")).gtZero then
          parseAmount ((parseCSVLine line).getD 5 "")
        else (parseAmount ((parseCSVLine line).getD 4 "")).neg) := by
  refine ⟨⟨by decide, by decide⟩, ?_⟩
  intro line tx h
  simp only [adcbAccountRow] at h
  split at h
  · exact absurd h (by simp)
  · split at h
    · exact absurd h (by simp)
    · split at h
      · exact absurd h (by simp)
      · cases h
        rfl

/-- C8 witness: the sign rule applied to the scenario's data row, where the
credit column is zero and the debit column is 15.00. -/
theorem C8_adcb_account_scenario_witness :
    adcbAccountRow "01/02/2024,01/02/2024,R1,\"Coffee Shop\",15.00,0" =
      some { date := "2024-02-01", payee := "Coffee Shop", memo := ""
             amount := .num (-15), originalDate := "01/02/2024" } ∧
    ({ date := "2024-02-01", payee := "Coffee Shop", memo := ""
       amount := .num (-15), originalDate := "01/02/2024" } : Transaction).amount =
      (if (parseAmount ((parseCSVLine "01/02/2024,01/02/2024,R1,\"Coffee Shop\",15.00,0").getD 5 "")).gtZero then
        parseAmount ((parseCSVLine "01/02/2024,01/02/2024,R1,\"Coffee Shop\",15.00,0").getD 5 "")
      else (parseAmount ((parseCSVLine "01/02/2024,01/02/2024,R1,\"Coffee Shop\",15.00,0").getD 4 "")).neg) :=
  ⟨by decide, C8_adcb_account_scenario.2 "01/02/2024,01/02/2024,R1,\"Coffee Shop\",15.00,0" _ (by decide)⟩

/-! ## C7: the date normalizers -/

lemma not_ws_of_word {c : Char} (h : isWordChar c = true) : isWsChar c = false := by
  cases hws : isWsChar c with
  | false => rfl
  | true =>
    exfalso
    simp only [isWsChar, Bool.or_eq_true, beq_iff_eq] at hws
    rcases hws with ((((h1 | h1) | h1) | h1) | h1) | h1 <;> subst h1 <;>
      exact absurd h (by decide)

lemma not_ws_of_digit {c : Char} (h : c.isDigit = true) : isWsChar c = false := by
  cases hws : isWsChar c with
  | false => rfl
  | true =>
    exfalso
    simp only [isWsChar, Bool.or_eq_true, beq_iff_eq] at hws
    rcases hws with ((((h1 | h1) | h1) | h1) | h1) | h1 <;> subst h1 <;>
      exact absurd h (by decide)

lemma ne_slash_of_digit {c : Char} (h : c.isDigit = true) : (c == '/') = false := by
  cases hc : c == '/' with
  | false => rfl
  | true =>
    exfalso
    rw [beq_iff_eq] at hc
    subst hc
    exact absurd h (by decide)

lemma word_of_digit {c : Char} (h : c.isDigit = true) : isWordChar c = true := by
  simp [isWordChar, h]

lemma splitChar_strictDate {d1 d2 m1 m2 y1 y2 y3 y4 : Char}
    (hd1 : d1.isDigit = true) (hd2 : d2.isDigit = true)
    (hm1 : m1.isDigit = true) (hm2 : m2.isDigit = true)
    (hy1 : y1.isDigit = true) (hy2 : y2.isDigit = true)
    (hy3 : y3.isDigit = true) (hy4 : y4.isDigit = true) :
    splitChar '/' ⟨[d1, d2, '/', m1, m2, '/', y1, y2, y3, y4]⟩ =
      [⟨[d1, d2]⟩, ⟨[m1, m2]⟩, ⟨[y1, y2, y3, y4]⟩] := by
  simp [splitChar, splitCharAux, ne_slash_of_digit, hd1, hd2, hm1, hm2, hy1, hy2, hy3, hy4]

lemma monthDateCont_exact {a b c y1 y2 y3 y4 : Char}
    (ha : isWordChar a = true) (hb : isWordChar b = true) (hc : isWordChar c = true)
    (hy1 : y1.isDigit = true) (hy2 : y2.isDigit = true)
    (hy3 : y3.isDigit = true) (hy4 : y4.isDigit = true) :
    monthDateCont (' ' :: a :: b :: c :: ' ' :: [y1, y2, y3, y4]) =
      some ([a, b, c], [y1, y2, y3, y4]) := by
  have hsp : isWsChar ' ' = true := by decide
  have hwa := not_ws_of_word ha
  have hwy := not_ws_of_digit hy1
  simp [monthDateCont, List.takeWhile_cons, hsp, hwa, hwy, ha, hb, hc, hy1, hy2, hy3, hy4]

lemma monthDateScan_exact2 {d1 d2 a b c y1 y2 y3 y4 : Char}
    (hd1 : d1.isDigit = true) (hd2 : d2.isDigit = true)
    (ha : isWordChar a = true) (hb : isWordChar b = true) (hc : isWordChar c = true)
    (hy1 : y1.isDigit = true) (hy2 : y2.isDigit = true)
    (hy3 : y3.isDigit = true) (hy4 : y4.isDigit = true) :
    monthDateScan (d1 :: d2 :: ' ' :: a :: b :: c :: ' ' :: [y1, y2, y3, y4]) =
      some ([d1, d2], [a, b, c], [y1, y2, y3, y4]) := by
  simp [monthDateScan, monthDateAttempt, hd1, hd2,
    monthDateCont_exact ha hb hc hy1 hy2 hy3 hy4]

lemma monthDateScan_exact1 {d1 a b c y1 y2 y3 y4 : Char}
    (hd1 : d1.isDigit = true)
    (ha : isWordChar a = true) (hb : isWordChar b = true) (hc : isWordChar c = true)
    (hy1 : y1.isDigit = true) (hy2 : y2.isDigit = true)
    (hy3 : y3.isDigit = true) (hy4 : y4.isDigit = true) :
    monthDateScan (d1 :: ' ' :: a :: b :: c :: ' ' :: [y1, y2, y3, y4]) =
      some ([d1], [a, b, c], [y1, y2, y3, y4]) := by
  have hnd : (' ' : Char).isDigit = false := by decide
  simp [monthDateScan, monthDateAttempt, hd1, hnd,
    monthDateCont_exact ha hb hc hy1 hy2 hy3 hy4]

lemma monthDateAttempt_none_of_no_digit {l : List Char}
    (h : ∀ c ∈ l, c.isDigit = false) : monthDateAttempt l = none := by
  match l with
  | [] => rfl
  | [x] => rfl
  | x :: y :: rest =>
    have hx := h x (by simp)
    simp [monthDateAttempt, hx]

lemma monthDateScan_none_of_no_digit {l : List Char}
    (h : ∀ c ∈ l, c.isDigit = false) : monthDateScan l = none := by
  induction l with
  | nil => rfl
  | cons x rest ih =>
    rw [monthDateScan, monthDateAttempt_none_of_no_digit h]
    exact ih fun c hc => h c (by simp [hc])

/-- C7 counterexample: a string with two slashes that is not a date is not
returned unchanged — `parseDDMMYYYY` rearranges and zero-pads its pieces
blindly. -/
theorem C7_counterexample :
    parseDDMMYYYY "a/b/c" = "c-0b-0a" ∧ ("c-0b-0a" : String) ≠ "a/b/c" :=
  ⟨by decide, by decide⟩

/-- C7 (amended): the positive direction holds — a strict zero-padded
`DD/MM/YYYY` string and a `D Mon YYYY` string (one- or two-digit day,
three-letter month abbreviation in any case, four-digit year) normalize to
canonical `YYYY-MM-DD`, and both normalizers are total (never raise).  The
"every non-matching string is returned unchanged" direction fails (see the
counterexample) and holds only in the weaker form: `parseDDMMYYYY` returns
a string unchanged when splitting on `/` does not give exactly three
pieces, and `parseMonthDate` returns a string unchanged when it contains no
digit at all. -/
theorem C7_date_normalizers :
    (∀ d1 d2 m1 m2 y1 y2 y3 y4 : Char,
      d1.isDigit = true → d2.isDigit = true → m1.isDigit = true → m2.isDigit = true →
      y1.isDigit = true → y2.isDigit = true → y3.isDigit = true → y4.isDigit = true →
      parseDDMMYYYY ⟨[d1, d2, '/', m1, m2, '/', y1, y2, y3, y4]⟩ =
        ⟨[y1, y2, y3, y4, '-', m1, m2, '-', d1, d2]⟩) ∧
    (∀ d1 d2 a b c y1 y2 y3 y4 : Char, ∀ mm : String,
      d1.isDigit = true → d2.isDigit = true →
      isWordChar a = true → isWordChar b = true → isWordChar c = true →
      y1.isDigit = true → y2.isDigit = true → y3.isDigit = true → y4.isDigit = true →
      monthNum (jsToLower ⟨[a, b, c]⟩) = some mm →
      parseMonthDate ⟨[d1, d2, ' ', a, b, c, ' ', y1, y2, y3, y4]⟩ =
        (⟨[y1, y2, y3, y4]⟩ : String) ++ "-" ++ mm ++ "-" ++ ⟨[d1, d2]⟩) ∧
    (∀ d1 a b c y1 y2 y3 y4 : Char, ∀ mm : String,
      d1.isDigit = true →
      isWordChar a = true → isWordChar b = true → isWordChar c = true →
      y1.isDigit = true → y2.isDigit = true → y3.isDigit = true → y4.isDigit = true →
      monthNum (jsToLower ⟨[a, b, c]⟩) = some mm →
      parseMonthDate ⟨[d1, ' ', a, b, c, ' ', y1, y2, y3, y4]⟩ =
        (⟨[y1, y2, y3, y4]⟩ : String) ++ "-" ++ mm ++ "-" ++ ⟨['0', d1]⟩) ∧
    (∀ s : String, (splitChar '/' s).length ≠ 3 → parseDDMMYYYY s = s) ∧
    (∀ s : String, (∀ c ∈ s.data, c.isDigit = false) → parseMonthDate s = s) := by
  refine ⟨?_, ?_, ?_, ?_, ?_⟩
  · intro d1 d2 m1 m2 y1 y2 y3 y4 hd1 hd2 hm1 hm2 hy1 hy2 hy3 hy4
    unfold parseDDMMYYYY
    rw [splitChar_strictDate hd1 hd2 hm1 hm2 hy1 hy2 hy3 hy4]
    rfl
  · intro d1 d2 a b c y1 y2 y3 y4 mm hd1 hd2 ha hb hc hy1 hy2 hy3 hy4 hmm
    unfold parseMonthDate
    rw [show (⟨[d1, d2, ' ', a, b, c, ' ', y1, y2, y3, y4]⟩ : String).data =
      d1 :: d2 :: ' ' :: a :: b :: c :: ' ' :: [y1, y2, y3, y4] from rfl]
    rw [monthDateScan_exact2 hd1 hd2 ha hb hc hy1 hy2 hy3 hy4]
    simp only [hmm]
    rfl
  · intro d1 a b c y1 y2 y3 y4 mm hd1 ha hb hc hy1 hy2 hy3 hy4 hmm
    unfold parseMonthDate
    rw [show (⟨[d1, ' ', a, b, c, ' ', y1, y2, y3, y4]⟩ : String).data =
      d1 :: ' ' :: a :: b :: c :: ' ' :: [y1, y2, y3, y4] from rfl]
    rw [monthDateScan_exact1 hd1 ha hb hc hy1 hy2 hy3 hy4]
    simp only [hmm]
    rfl
  · intro s h
    unfold parseDDMMYYYY
    split
    · rename_i dd mm yyyy heq
      exact absurd (by rw [heq]; rfl) h
    · rfl
  · intro s h
    unfold parseMonthDate
    rw [monthDateScan_none_of_no_digit h]

/-- C7 witness: the normalizers applied at concrete dates of each shape and
at concrete non-matching strings. -/
theorem C7_date_normalizers_witness :
    parseDDMMYYYY "04/02/2024" = "2024-02-04" ∧
    parseMonthDate "24 Jan 2026" = "2026-01-24" ∧
    parseMonthDate "4 sEp 2025" = "2025-09-04" ∧
    parseDDMMYYYY "hello world" = "hello world" ∧
    parseMonthDate "no digits here" = "no digits here" :=
  ⟨C7_date_normalizers.1 '0' '4' '0' '2' '2' '0' '2' '4'
      (by decide) (by decide) (by decide) (by decide)
      (by decide) (by decide) (by decide) (by decide),
   C7_date_normalizers.2.1 '2' '4' 'J' 'a' 'n' '2' '0' '2' '6' "01"
      (by decide) (by decide) (by decide) (by decide) (by decide)
      (by decide) (by decide) (by decide) (by decide) (by decide),
   C7_date_normalizers.2.2.1 '4' 's' 'E' 'p' '2' '0' '2' '5' "09"
      (by decide) (by decide) (by decide) (by decide)
      (by decide) (by decide) (by decide) (by decide) (by decide),
   C7_date_normalizers.2.2.2.1 "hello world" (by decide),
   C7_date_normalizers.2.2.2.2 "no digits here" (by decide)⟩

/-! ## C6: the line tokenizer -/

lemma dropWhile_idem (p : Char → Bool) (l : List Char) :
    (l.dropWhile p).dropWhile p = l.dropWhile p := by
  induction l with
  | nil => rfl
  | cons a l ih => by_cases h : p a <;> simp [List.dropWhile_cons, h, ih]

lemma dropWhile_rev_prefix (p : Char → Bool) (l : List Char) :
    ((l.reverse.dropWhile p).reverse) <+: l := by
  have h1 : l.reverse.dropWhile p <:+ l.reverse := List.dropWhile_suffix p
  have h2 := List.reverse_prefix.mpr h1
  rwa [List.reverse_reverse] at h2

lemma trimChars_idem (l : List Char) : trimChars (trimChars l) = trimChars l := by
  have hA : (l.dropWhile isWsChar).dropWhile isWsChar = l.dropWhile isWsChar :=
    dropWhile_idem _ _
  have hfront : (trimChars l).dropWhile isWsChar = trimChars l := by
    obtain ⟨t, ht⟩ := dropWhile_rev_prefix isWsChar (l.dropWhile isWsChar)
    cases hB : trimChars l with
    | nil => rfl
    | cons x xs =>
      unfold trimChars at hB
      rw [hB] at ht
      have hx : isWsChar x = false := by
        cases hpx : isWsChar x with
        | false => rfl
        | true =>
          exfalso
          rw [← ht] at hA
          rw [List.cons_append, List.dropWhile_cons, hpx] at hA
          simp only [if_true] at hA
          have hlen := congrArg List.length hA
          rw [List.length_cons] at hlen
          have hle : (List.dropWhile isWsChar (xs ++ t)).length ≤ (xs ++ t).length :=
            (List.dropWhile_sublist isWsChar).length_le
          omega
      rw [List.dropWhile_cons, hx]
      simp
  calc trimChars (trimChars l)
      = (((trimChars l).dropWhile isWsChar).reverse.dropWhile isWsChar).reverse := rfl
    _ = ((trimChars l).reverse.dropWhile isWsChar).reverse := by rw [hfront]
    _ = trimChars l := by
        unfold trimChars
        rw [List.reverse_reverse, dropWhile_idem]

lemma jsTrim_idem (s : String) : jsTrim (jsTrim s) = jsTrim s := by
  simp [jsTrim, trimChars_idem]

lemma mem_trimChars {x : Char} {l : List Char} (h : x ∈ trimChars l) : x ∈ l := by
  unfold trimChars at h
  rw [List.mem_reverse] at h
  have h2 := (List.dropWhile_sublist isWsChar).mem h
  rw [List.mem_reverse] at h2
  exact (List.dropWhile_sublist isWsChar).mem h2

lemma mem_parseCSVLineAux_trimmed :
    ∀ (l : List Char) (inQ : Bool) (cur : List Char) (f : String),
      f ∈ parseCSVLineAux l inQ cur → jsTrim f = f := by
  intro l
  induction l with
  | nil =>
    intro inQ cur f hf
    simp only [parseCSVLineAux, List.mem_singleton] at hf
    rw [hf]
    exact jsTrim_idem _
  | cons c rest ih =>
    intro inQ cur f hf
    rw [parseCSVLineAux] at hf
    split at hf
    · exact ih _ _ _ hf
    · split at hf
      · rcases List.mem_cons.mp hf with h | h
        · rw [h]; exact jsTrim_idem _
        · exact ih _ _ _ h
      · exact ih _ _ _ hf

lemma mem_parseCSVLineAux_no_quote :
    ∀ (l : List Char) (inQ : Bool) (cur : List Char),
      (∀ c ∈ cur, c ≠ '"') →
      ∀ f ∈ parseCSVLineAux l inQ cur, ∀ ch ∈ f.data, ch ≠ '"' := by
  intro l
  induction l with
  | nil =>
    intro inQ cur hcur f hf ch hch
    simp only [parseCSVLineAux, List.mem_singleton] at hf
    rw [hf] at hch
    have := mem_trimChars hch
    rw [List.mem_reverse] at this
    exact hcur ch this
  | cons c rest ih =>
    intro inQ cur hcur f hf ch hch
    rw [parseCSVLineAux] at hf
    split at hf
    · exact ih _ _ hcur f hf ch hch
    · rename_i hq
      have hcq : c ≠ '"' := by
        intro he
        rw [he] at hq
        exact hq (by decide)
      split at hf
      · rcases List.mem_cons.mp hf with h | h
        · rw [h] at hch
          have := mem_trimChars hch
          rw [List.mem_reverse] at this
          exact hcur ch this
        · exact ih _ _ (by intro x hx; cases hx) f h ch hch
      · exact ih _ _ (by
          intro x hx
          rcases List.mem_cons.mp hx with h | h
          · rw [h]; exact hcq
          · exact hcur x h) f hf ch hch

lemma parseCSVLineAux_inQuotes_open :
    ∀ (l cur : List Char), (∀ c ∈ l, c ≠ '"') →
      parseCSVLineAux l true cur = [jsTrim ⟨cur.reverse ++ l⟩] := by
  intro l
  induction l with
  | nil => intro cur h; simp [parseCSVLineAux]
  | cons c rest ih =>
    intro cur h
    have hcq : (c == '"') = false := by
      cases hq : c == '"' with
      | false => rfl
      | true => exact absurd (by rwa [beq_iff_eq] at hq) (h c (by simp))
    rw [parseCSVLineAux, hcq]
    simp only [Bool.false_eq_true, if_false, Bool.not_true, Bool.and_false]
    rw [ih (c :: cur) (fun x hx => h x (by simp [hx]))]
    simp

lemma parseCSVLineAux_inQuotes_closed :
    ∀ (l cur : List Char), (∀ c ∈ l, c ≠ '"') →
      parseCSVLineAux (l ++ ['"']) true cur = [jsTrim ⟨cur.reverse ++ l⟩] := by
  intro l
  induction l with
  | nil =>
    intro cur h
    rw [List.nil_append, parseCSVLineAux]
    simp [parseCSVLineAux]
  | cons c rest ih =>
    intro cur h
    have hcq : (c == '"') = false := by
      cases hq : c == '"' with
      | false => rfl
      | true => exact absurd (by rwa [beq_iff_eq] at hq) (h c (by simp))
    rw [List.cons_append, parseCSVLineAux, hcq]
    simp only [Bool.false_eq_true, if_false, Bool.not_true, Bool.and_false]
    rw [ih (c :: cur) (fun x hx => h x (by simp [hx]))]
    simp

/-- C6 counterexample: inside a quoted span a doubled double-quote yields
no character at all (every quote is dropped), not one literal quote: the
field for `"a""b"` is `ab`, not `a"b`. -/
theorem C6_counterexample :
    parseCSVLine "\"a\"\"b\"" = ["ab"] ∧
    ∀ ch ∈ ("ab" : String).data, ch ≠ '"' :=
  ⟨by decide, by decide⟩

/-- C6 (amended): the tokenizer produces trimmed fields, a comma inside a
double-quoted span does not separate fields, and an unterminated quote
merges the whole remainder (commas included) into the final field without
raising; but a doubled double-quote contributes no character — every
double-quote character is dropped, so no output field ever contains a
quote. -/
theorem C6_tokenizer :
    (∀ line : String, ∀ f ∈ parseCSVLine line, jsTrim f = f) ∧
    (∀ line : String, ∀ f ∈ parseCSVLine line, ∀ ch ∈ f.data, ch ≠ '"') ∧
    (∀ s : String, (∀ c ∈ s.data, c ≠ '"') →
      parseCSVLine ("\"" ++ s ++ "\"") = [jsTrim s]) ∧
    (∀ s : String, (∀ c ∈ s.data, c ≠ '"') →
      parseCSVLine ("\"" ++ s) = [jsTrim s]) := by
  refine ⟨?_, ?_, ?_, ?_⟩
  · intro line f hf
    exact mem_parseCSVLineAux_trimmed _ _ _ _ hf
  · intro line f hf ch hch
    exact mem_parseCSVLineAux_no_quote _ _ _ (by intro x hx; cases hx) f hf ch hch
  · intro s h
    unfold parseCSVLine
    rw [show ("\"" ++ s ++ "\"").data = '"' :: (s.data ++ ['"']) by
      rw [String.data_append, String.data_append]; rfl]
    rw [parseCSVLineAux]
    simp only [if_pos (by rfl : ('"' == '"') = true)]
    rw [show (!false) = true from rfl]
    rw [parseCSVLineAux_inQuotes_closed s.data [] h]
    rfl
  · intro s h
    unfold parseCSVLine
    rw [show ("\"" ++ s).data = '"' :: s.data by rw [String.data_append]; rfl]
    rw [parseCSVLineAux]
    simp only [if_pos (by rfl : ('"' == '"') = true)]
    rw [show (!false) = true from rfl]
    rw [parseCSVLineAux_inQuotes_open s.data [] h]
    rfl

/-- C6 witness: the tokenizer contracts applied to a concrete line with a
quoted comma and to a concrete unterminated-quote line. -/
theorem C6_tokenizer_witness :
    jsTrim "x" = "x" ∧
    (∀ ch ∈ ("x" : String).data, ch ≠ '"') ∧
    parseCSVLine "\"a,b\"" = [jsTrim "a,b"] ∧
    parseCSVLine "\"a,b, c" = [jsTrim "a,b, c"] :=
  ⟨C6_tokenizer.1 "a, x ,b" "x" (by decide),
   C6_tokenizer.2.1 "a, x ,b" "x" (by decide),
   C6_tokenizer.2.2.1 "a,b" (by decide),
   C6_tokenizer.2.2.2 "a,b, c" (by decide)⟩

/-! ## C4: the vertical-tolerance clustering -/

/-- Every member of a cluster lies within the tolerance band below the
cluster's founding `y` (fragments are processed top-to-bottom). -/
def clusterInv (c : LineCluster) : Prop :=
  ∀ it ∈ c.items, c.y - 4 ≤ it.y ∧ it.y ≤ c.y

lemma insertItem_mem_y {cs : List LineCluster} {it : RawItem} {c : LineCluster}
    (h : c ∈ insertItem cs it) : c.y ∈ cs.map LineCluster.y ∨ c.y = it.y := by
  induction cs with
  | nil =>
    simp only [insertItem, List.mem_singleton] at h
    right; rw [h]
  | cons c0 cs ih =>
    rw [insertItem] at h
    split at h
    · rcases List.mem_cons.mp h with h | h
      · left; rw [h]; simp
      · left; simp only [List.map_cons, List.mem_cons]; right
        exact List.mem_map_of_mem _ h
    · rcases List.mem_cons.mp h with h | h
      · left; rw [h]; simp
      · rcases ih h with h | h
        · left; simp only [List.map_cons, List.mem_cons]; right; exact h
        · right; exact h

lemma insertItem_inv {cs : List LineCluster} {it : RawItem}
    (hinv : ∀ c ∈ cs, clusterInv c) (hle : ∀ c ∈ cs, it.y ≤ c.y) :
    ∀ c ∈ insertItem cs it, clusterInv c := by
  induction cs with
  | nil =>
    intro c hc
    simp only [insertItem, List.mem_singleton] at hc
    rw [hc]
    intro x hx
    simp only [List.mem_singleton] at hx
    rw [hx]
    dsimp only
    omega
  | cons c0 cs ih =>
    intro c hc
    rw [insertItem] at hc
    split at hc
    · rename_i htol
      rcases List.mem_cons.mp hc with h | h
      · rw [h]
        intro x hx
        simp only [List.mem_append, List.mem_singleton] at hx
        rcases hx with hx | hx
        · exact hinv c0 (by simp) x hx
        · rw [hx]
          have h1 := hle c0 (by simp)
          have htol4 : (c0.y - it.y).natAbs ≤ 4 := htol
          dsimp only
          omega
      · exact hinv c (List.mem_cons_of_mem _ h)
    · rcases List.mem_cons.mp hc with h | h
      · rw [h]; exact hinv c0 (by simp)
      · exact ih (fun c hc => hinv c (List.mem_cons_of_mem _ hc))
          (fun c hc => hle c (List.mem_cons_of_mem _ hc)) c h

lemma buildClusters_go {s : List RawItem} :
    ∀ {acc : List LineCluster},
      (∀ c ∈ acc, clusterInv c) →
      (∀ c ∈ acc, ∀ it ∈ s, it.y ≤ c.y) →
      List.Sorted (fun a b : RawItem => b.y ≤ a.y) s →
      ∀ c ∈ s.foldl insertItem acc, clusterInv c := by
  induction s with
  | nil => intro acc hinv _ _ c hc; exact hinv c hc
  | cons it rest ih =>
    intro acc hinv hle hsorted c hc
    rw [List.foldl_cons] at hc
    refine ih ?_ ?_ hsorted.of_cons c hc
    · exact insertItem_inv hinv (fun c hc => hle c hc it (by simp))
    · intro c hc it' hit'
      rcases insertItem_mem_y hc with h | h
      · simp only [List.mem_map] at h
        obtain ⟨c', hc', hy⟩ := h
        rw [← hy]
        exact hle c' hc' it' (List.mem_cons_of_mem _ hit')
      · rw [h]
        exact List.rel_of_sorted_cons hsorted it' hit'

instance : IsTotal RawItem (fun a b => b.y ≤ a.y) :=
  ⟨fun a b => le_total b.y a.y⟩

instance : IsTrans RawItem (fun a b => b.y ≤ a.y) :=
  ⟨fun _ _ _ hab hbc => le_trans hbc hab⟩

lemma pageClusters_inv {input : List InputItem} {c : LineCluster}
    (hc : c ∈ pageClusters input) : clusterInv c := by
  unfold pageClusters sortClustersByYDesc at hc
  have hc2 : c ∈ buildClusters (sortByYDesc (rawItemsOf input)) :=
    (List.perm_insertionSort _ _).mem_iff.mp hc
  unfold buildClusters at hc2
  refine buildClusters_go (by intro c hc; cases hc) (by intro c hc; cases hc) ?_ c hc2
  exact List.sorted_insertionSort _ _

/-- C4 counterexample: fragments at rounded vertical coordinates 108, 104
and 100 — the fragments at 104 and 100 differ by exactly the tolerance 4,
yet they land on different logical lines, because 104 joined the cluster
founded at 108 and 100 is more than 4 away from that founding coordinate.
So "same line iff |Δy| ≤ 4" fails in the if direction. -/
theorem C4_counterexample :
    pageClusters [⟨0, 108, "a"⟩, ⟨1, 104, "b"⟩, ⟨2, 100, "c"⟩] =
      [⟨108, [⟨0, 108, "a"⟩, ⟨1, 104, "b"⟩]⟩, ⟨100, [⟨2, 100, "c"⟩]⟩] ∧
    ((104 : ℤ) - 100).natAbs ≤ 4 :=
  ⟨by decide, by decide⟩

/-- C4 (amended): the only-if direction holds — two fragments placed on the
same logical line always have rounded vertical coordinates within 4 units
of each other — and the two-fragment scenarios hold: coordinates 100 and
103 merge into one line, 100 and 106 split into two (the 106 fragment is
emitted first, pages read top-down).  The if direction is
false (see the counterexample): a fragment within 4 of another can still
open a new line when it is more than 4 below the line's founding
fragment. -/
theorem C4_vertical_tolerance :
    (∀ (input : List InputItem) (c : LineCluster) (p q : RawItem),
      c ∈ pageClusters input → p ∈ c.items → q ∈ c.items →
      (p.y - q.y).natAbs ≤ 4) ∧
    processPage [⟨0, 100, "a"⟩, ⟨5, 103, "b"⟩] = "a b" ∧
    processPage [⟨0, 100, "a"⟩, ⟨5, 106, "b"⟩] = "b\na" := by
  refine ⟨?_, by decide, by decide⟩
  intro input c p q hc hp hq
  have hinv := pageClusters_inv hc
  have h1 := hinv p hp
  have h2 := hinv q hq
  omega

/-- C4 witness: the bound applied to the two fragments of the merged
100/103 scenario line. -/
theorem C4_vertical_tolerance_witness :
    ((⟨0, 100, "a"⟩ : RawItem).y - (⟨5, 103, "b"⟩ : RawItem).y).natAbs ≤ 4 :=
  C4_vertical_tolerance.1 [⟨0, 100, "a"⟩, ⟨5, 103, "b"⟩]
    ⟨103, [⟨5, 103, "b"⟩, ⟨0, 100, "a"⟩]⟩ _ _ (by decide) (by decide) (by decide)

/-! ## C10: fixed per-parser classification -/

lemma parseADCBAccount_class (content : String) :
    (parseADCBAccount content).bankName = "ADCB" ∧
    (parseADCBAccount content).statementType = "Account Statement" := by
  simp only [parseADCBAccount]
  rcases adcbAccountScan (prepLines content) with ⟨m, _ | r⟩ <;> exact ⟨rfl, rfl⟩

lemma parseADCBCreditCard_class (content : String) :
    (parseADCBCreditCard content).bankName = "ADCB" ∧
    (parseADCBCreditCard content).statementType = "Credit Card Statement" := by
  simp only [parseADCBCreditCard]
  rcases adcbCreditScan (prepLines content) with ⟨m, _ | r⟩ <;> exact ⟨rfl, rfl⟩

lemma parseENBDCreditCard_class (f : FileModel) :
    (parseENBDCreditCard f).bankName = "Emirates NBD" ∧
    (parseENBDCreditCard f).statementType = "Credit Card Statement" := by
  simp only [parseENBDCreditCard]
  rcases extractTextFromPDF f with e | pages <;> exact ⟨rfl, rfl⟩

lemma parseENBDAccount_class (f : FileModel) :
    (parseENBDAccount f).bankName = "Emirates NBD" ∧
    (parseENBDAccount f).statementType = "Account Statement" := by
  simp only [parseENBDAccount]
  rcases extractTextFromPDF f with e | pages <;> exact ⟨rfl, rfl⟩

/-- C10: every bank-specific parser stamps its fixed bankName/statementType
on its ParseResult, whatever the input (including caught faults and missing
headers); and whenever the orchestrator returns a result classified
"Unknown", the statement type is "Unknown" too, the transactions are empty,
there is exactly one error message, and the input was either an unsupported
suffix or a file whose content no detector recognized. -/
theorem C10_classification :
    (∀ content, (parseADCBAccount content).bankName = "ADCB" ∧
      (parseADCBAccount content).statementType = "Account Statement") ∧
    (∀ content, (parseADCBCreditCard content).bankName = "ADCB" ∧
      (parseADCBCreditCard content).statementType = "Credit Card Statement") ∧
    (∀ f, (parseENBDCreditCard f).bankName = "Emirates NBD" ∧
      (parseENBDCreditCard f).statementType = "Credit Card Statement") ∧
    (∀ f, (parseENBDAccount f).bankName = "Emirates NBD" ∧
      (parseENBDAccount f).statementType = "Account Statement") ∧
    (∀ f r, parseFile f = Except.ok r → r.bankName = "Unknown" →
      r.statementType = "Unknown" ∧ r.transactions = [] ∧ (∃ e, r.errors = [e]) ∧
      ((jsEndsWith ".csv" (jsToLower f.name) = false ∧
          jsEndsWith ".pdf" (jsToLower f.name) = false) ∨
        (∃ content, f.text = Except.ok content ∧ detectADCBType content = none) ∨
        (∃ items, f.pdfFirstPageItems = Except.ok items ∧
          detectENBDType (joinSep " " items) = none))) := by
  refine ⟨parseADCBAccount_class, parseADCBCreditCard_class,
    parseENBDCreditCard_class, parseENBDAccount_class, ?_⟩
  intro f r hok hunk
  simp only [parseFile] at hok
  by_cases hcsv : jsEndsWith ".csv" (jsToLower f.name)
  · rw [if_pos hcsv] at hok
    simp only [parseCSVFile] at hok
    cases htext : f.text with
    | error e => rw [htext] at hok; cases hok
    | ok content =>
      rw [htext] at hok
      cases hdet : detectADCBType content with
      | some t =>
        simp only [hdet] at hok
        cases t with
        | account =>
          cases hok
          exact absurd ((parseADCBAccount_class content).1.symm.trans hunk) (by decide)
        | creditcard =>
          cases hok
          exact absurd ((parseADCBCreditCard_class content).1.symm.trans hunk) (by decide)
      | none =>
        simp only [hdet] at hok
        cases hok
        exact ⟨rfl, rfl, ⟨_, rfl⟩, Or.inr (Or.inl ⟨content, rfl, hdet⟩)⟩
  · rw [if_neg hcsv] at hok
    by_cases hpdf : jsEndsWith ".pdf" (jsToLower f.name)
    · rw [if_pos hpdf] at hok
      simp only [parsePDFFile] at hok
      cases hitems : f.pdfFirstPageItems with
      | error e => rw [hitems] at hok; cases hok
      | ok items =>
        rw [hitems] at hok
        cases hdet : detectENBDType (joinSep " " items) with
        | some t =>
          simp only [hdet] at hok
          cases t with
          | creditcard =>
            cases hok
            exact absurd ((parseENBDCreditCard_class f).1.symm.trans hunk) (by decide)
          | account =>
            cases hok
            exact absurd ((parseENBDAccount_class f).1.symm.trans hunk) (by decide)
        | none =>
          simp only [hdet] at hok
          cases hok
          exact ⟨rfl, rfl, ⟨_, rfl⟩, Or.inr (Or.inr ⟨items, rfl, hdet⟩)⟩
    · rw [if_neg hpdf] at hok
      cases hok
      refine ⟨rfl, rfl, ⟨_, rfl⟩, Or.inl ⟨?_, ?_⟩⟩
      · exact Bool.not_eq_true _ ▸ (by simpa using hcsv)
      · exact Bool.not_eq_true _ ▸ (by simpa using hpdf)

/-- C10 witness inputs: an unsupported `.txt` file and the orchestrator's
Unknown result for it. -/
def c10File : FileModel :=
  { name := "report.txt", text := .ok "", pdfFirstPageItems := .ok [], pdfPages := .ok [] }

def c10Unknown : ParseResult :=
  { bankName := "Unknown", statementType := "Unknown", transactions := []
    metadata := []
    errors := ["Unsupported file type: report.txt. Please upload a CSV or PDF file."] }

/-- C10 witness: the parser part at a concrete input, and the orchestrator
part applied to the unsupported `.txt` file. -/
theorem C10_classification_witness :
    (parseADCBAccount "").bankName = "ADCB" ∧
    (c10Unknown.statementType = "Unknown" ∧ c10Unknown.transactions = [] ∧
      (∃ e, c10Unknown.errors = [e]) ∧
      ((jsEndsWith ".csv" (jsToLower c10File.name) = false ∧
          jsEndsWith ".pdf" (jsToLower c10File.name) = false) ∨
        (∃ content, c10File.text = Except.ok content ∧ detectADCBType content = none) ∨
        (∃ items, c10File.pdfFirstPageItems = Except.ok items ∧
          detectENBDType (joinSep " " items) = none))) :=
  ⟨(C10_classification.1 "").1,
   C10_classification.2.2.2.2 c10File c10Unknown (by rfl) (by rfl)⟩

/-! ## C2: fault propagation across the public parse entry point -/

/-- A `.pdf` file whose content extraction faults already at the
type-detection read. -/
def c2BadPdf : FileModel :=
  { name := "x.pdf", text := .ok ""
    pdfFirstPageItems := .error "bad PDF"
    pdfPages := .error "bad PDF" }

/-- C2 counterexample: a corrupt PDF makes `parseFile` itself reject —
`parsePDFFile` runs the detection-stage text extraction outside any
try/catch, so the fault escapes instead of becoming an error string in a
ParseResult. -/
theorem C2_counterexample : parseFile c2BadPdf = Except.error "bad PDF" := by rfl

/-- C2 (amended): `parseFile` returns a ParseResult for every input whose
raw content read succeeds — the suffix routing itself never throws, and a
fault of the per-page extraction inside the ENBD extractors is caught and
converted into a single `PDF parsing error: ...` message with no
transactions; but a fault of the CSV text read or of the detection-stage
first-page extraction of a PDF propagates out of `parseFile` (see the
counterexample). -/
theorem C2_parse_totality :
    (∀ f : FileModel,
      (jsEndsWith ".csv" (jsToLower f.name) = true → ∃ c, f.text = Except.ok c) →
      (jsEndsWith ".pdf" (jsToLower f.name) = true → ∃ i, f.pdfFirstPageItems = Except.ok i) →
      ∃ r, parseFile f = Except.ok r) ∧
    (∀ f e, f.pdfPages = Except.error e →
      (parseENBDCreditCard f).errors = ["PDF parsing error: " ++ e] ∧
      (parseENBDCreditCard f).transactions = []) ∧
    (∀ f e, f.pdfPages = Except.error e →
      (parseENBDAccount f).errors = ["PDF parsing error: " ++ e] ∧
      (parseENBDAccount f).transactions = []) ∧
    (∀ f items, jsEndsWith ".csv" (jsToLower f.name) = false →
      jsEndsWith ".pdf" (jsToLower f.name) = true →
      f.pdfFirstPageItems = Except.ok items →
      detectENBDType (joinSep " " items) = some ENBDType.creditcard →
      parseFile f = Except.ok (parseENBDCreditCard f)) := by
  refine ⟨?_, ?_, ?_, ?_⟩
  · intro f hcsv hpdf
    simp only [parseFile]
    by_cases h1 : jsEndsWith ".csv" (jsToLower f.name)
    · rw [if_pos h1]
      obtain ⟨c, hc⟩ := hcsv h1
      simp only [parseCSVFile, hc]
      cases detectADCBType c with
      | some t => cases t <;> exact ⟨_, rfl⟩
      | none => exact ⟨_, rfl⟩
    · rw [if_neg h1]
      by_cases h2 : jsEndsWith ".pdf" (jsToLower f.name)
      · rw [if_pos h2]
        obtain ⟨i, hi⟩ := hpdf h2
        simp only [parsePDFFile, hi]
        cases detectENBDType (joinSep " " i) with
        | some t => cases t <;> exact ⟨_, rfl⟩
        | none => exact ⟨_, rfl⟩
      · rw [if_neg h2]
        exact ⟨_, rfl⟩
  · intro f e he
    simp [parseENBDCreditCard, extractTextFromPDF, he, Except.map]
  · intro f e he
    simp [parseENBDAccount, extractTextFromPDF, he, Except.map]
  · intro f items h1 h2 hitems hdet
    simp only [parseFile, h1, h2, if_pos, if_neg, Bool.false_eq_true, if_false, if_true]
    simp only [parsePDFFile, hitems, hdet]

/-- The file used to witness the caught-fault path: detection succeeds on
page one, the per-page extraction then faults. -/
def c2CaughtPdf : FileModel :=
  { name := "Statement.PDF", text := .ok ""
    pdfFirstPageItems := .ok ["Credit Card Statement"]
    pdfPages := .error "boom" }

/-- C2 witness: the amended theorem applied to the caught-fault file and to
a plain unsupported file. -/
theorem C2_parse_totality_witness :
    (∃ r, parseFile c2CaughtPdf = Except.ok r) ∧
    ((parseENBDCreditCard c2CaughtPdf).errors = ["PDF parsing error: " ++ "boom"] ∧
      (parseENBDCreditCard c2CaughtPdf).transactions = []) ∧
    parseFile c2CaughtPdf = Except.ok (parseENBDCreditCard c2CaughtPdf) :=
  ⟨C2_parse_totality.1 c2CaughtPdf (by intro h; exact absurd h (by decide))
      (by intro h; exact ⟨["Credit Card Statement"], rfl⟩),
   C2_parse_totality.2.1 c2CaughtPdf "boom" rfl,
   C2_parse_totality.2.2.2 c2CaughtPdf ["Credit Card Statement"]
     (by decide) (by decide) rfl (by rfl)⟩

/-! ## C9: first amount is the transaction, trailing balance is discarded -/

/-- C9: in the ENBD account extractor (a) whenever a dated row whose
amount-shaped fields are `a0 :: rest` emits a transaction, the emitted
amount is `a0.value` — the first amount-shaped field; with two or more
fields the trailing running balance is therefore never the emitted amount,
and a row emits at most one transaction; and (b) a dated row with exactly
one amount-shaped field that carries a trailing `Cr`/`Dr` balance marker
emits no transaction at all. -/
theorem C9_first_amount_rule :
    (∀ (lines : List String) (i : ℕ) (tx : Transaction)
        (dateGroup : String) (mlen : ℕ) (a0 : AmtMatch) (amtRest : List AmtMatch),
      enbdAccountDate (lines.getD i "").data = some (dateGroup, mlen) →
      scanAmounts ⟨(lines.getD i "").data.drop mlen⟩ = a0 :: amtRest →
      enbdAccountLine lines i = some tx →
      tx.amount = a0.value) ∧
    (∀ (lines : List String) (i : ℕ) (dateGroup : String) (mlen : ℕ) (a0 : AmtMatch),
      enbdAccountDate (lines.getD i "").data = some (dateGroup, mlen) →
      scanAmounts ⟨(lines.getD i "").data.drop mlen⟩ = [a0] →
      balanceTailCheck ⟨(lines.getD i "").data.drop mlen⟩ = true →
      enbdAccountLine lines i = none) := by
  constructor
  · intro lines i tx dateGroup mlen a0 amtRest hdm hscan h
    simp only [enbdAccountLine, hdm, hscan] at h
    split at h
    · exact absurd h (by simp)
    · split at h
      · exact absurd h (by simp)
      · split at h
        · exact absurd h (by simp)
        · cases h
          rfl
  · intro lines i dateGroup mlen a0 hdm hscan hbal
    simp only [enbdAccountLine, hdm, hscan]
    split
    · rfl
    · split
      · rfl
      · rename_i hcond
        exfalso
        apply hcond
        simp only [List.isEmpty_nil, Bool.true_and]
        simpa [List.getD] using hbal

/-- C9 witness: a two-amount dated row emits the first amount (the debit
−38564.24, not the balance 3341.06), and a balance-only dated row emits
nothing. -/
theorem C9_first_amount_rule_witness :
    (({ date := "2026-01-24", payee := "IPP TRANSFER", memo := ""
        amount := .num (-964106 / 25), originalDate := "24 Jan 2026" } :
      Transaction).amount =
        (⟨.num (-964106 / 25), 13, 9⟩ : AmtMatch).value) ∧
    enbdAccountLine ["24 Jan 2026 OPENING BALANCE 3341.06 Cr"] 0 = none :=
  ⟨C9_first_amount_rule.1 ["24 Jan 2026 IPP TRANSFER -38564.24 3341.06 Cr"] 0 _
      "24 Jan 2026" 12 ⟨.num (-964106 / 25), 13, 9⟩ [⟨.num (167053 / 50), 23, 7⟩]
      (by decide) (by decide) (by decide),
   C9_first_amount_rule.2 ["24 Jan 2026 OPENING BALANCE 3341.06 Cr"] 0
      "24 Jan 2026" 12 ⟨.num (167053 / 50), 16, 7⟩
      (by decide) (by decide) (by decide)⟩

/-! ## C5: order stability of the layout reconstructor -/

/-- Does any founding coordinate lie within tolerance of `y`? -/
def anyMatch (reps : List ℤ) (y : ℤ) : Bool :=
  reps.any fun r => (r - y).natAbs ≤ 4

/-- Index of the first founding coordinate within tolerance (the list
length when there is none) — the `find` of the clustering loop, seen on
founding coordinates only. -/
def assignIdx (reps : List ℤ) (y : ℤ) : ℕ :=
  match reps with
  | [] => 0
  | r :: rest => if (r - y).natAbs ≤ 4 then 0 else assignIdx rest y + 1

/-- The founding coordinates produced by processing `ys` in order. -/
def repsOf (ys : List ℤ) : List ℤ :=
  ys.foldl (fun rs y => if anyMatch rs y then rs else rs ++ [y]) []

lemma assignIdx_lt_iff (reps : List ℤ) (y : ℤ) :
    assignIdx reps y < reps.length ↔ anyMatch reps y = true := by
  induction reps with
  | nil => simp [assignIdx, anyMatch]
  | cons r rest ih =>
    by_cases h : (r - y).natAbs ≤ 4
    · simp [assignIdx, anyMatch, h]
    · simp only [assignIdx, anyMatch, if_neg h, List.any_cons, List.length_cons]
      rw [decide_eq_false h]
      simpa [anyMatch] using ih

lemma assignIdx_eq_length (reps : List ℤ) (y : ℤ) (h : anyMatch reps y = false) :
    assignIdx reps y = reps.length := by
  induction reps with
  | nil => rfl
  | cons r rest ih =>
    simp only [anyMatch, List.any_cons, Bool.or_eq_false_iff, decide_eq_false_iff_not] at h
    simp only [assignIdx, if_neg h.1, List.length_cons]
    rw [ih]
    simpa [anyMatch] using h.2

lemma assignIdx_append_left (reps l' : List ℤ) (y : ℤ) (h : anyMatch reps y = true) :
    assignIdx (reps ++ l') y = assignIdx reps y := by
  induction reps with
  | nil => simp [anyMatch] at h
  | cons r rest ih =>
    by_cases hr : (r - y).natAbs ≤ 4
    · simp [assignIdx, hr]
    · simp only [anyMatch, List.any_cons, Bool.or_eq_true, decide_eq_true_eq] at h
      rcases h with h | h
      · exact absurd h hr
      · simp only [List.cons_append, assignIdx, if_neg hr]
        rw [show rest.append l' = rest ++ l' from rfl, ih h]

lemma assignIdx_append_single (reps : List ℤ) (r0 y : ℤ) (h : anyMatch reps y = false) :
    assignIdx (reps ++ [r0]) y =
      reps.length + (if (r0 - y).natAbs ≤ 4 then 0 else 1) := by
  induction reps with
  | nil => by_cases hr : (r0 - y).natAbs ≤ 4 <;> simp [assignIdx, hr]
  | cons r rest ih =>
    simp only [anyMatch, List.any_cons, Bool.or_eq_false_iff, decide_eq_false_iff_not] at h
    simp only [List.cons_append, assignIdx, if_neg h.1, List.length_cons]
    rw [show rest.append [r0] = rest ++ [r0] from rfl, ih (by simpa [anyMatch] using h.2)]
    omega

lemma repsOf_append (ys : List ℤ) (y : ℤ) :
    repsOf (ys ++ [y]) =
      (if anyMatch (repsOf ys) y then repsOf ys else repsOf ys ++ [y]) := by
  simp [repsOf, List.foldl_append]

lemma insertItem_no_match {cs : List LineCluster} {it : RawItem}
    (h : anyMatch (cs.map LineCluster.y) it.y = false) :
    insertItem cs it = cs ++ [⟨it.y, [it]⟩] := by
  induction cs with
  | nil => rfl
  | cons c0 rest ih =>
    simp only [List.map_cons, anyMatch, List.any_cons, Bool.or_eq_false_iff,
      decide_eq_false_iff_not] at h
    rw [insertItem, if_neg (by exact h.1), List.cons_append]
    rw [ih (by simpa [anyMatch] using h.2)]

lemma insertItem_match {cs : List LineCluster} {it : RawItem}
    (h : anyMatch (cs.map LineCluster.y) it.y = true) :
    ((insertItem cs it).map LineCluster.y = cs.map LineCluster.y) ∧
    (∀ k : ℕ, (insertItem cs it)[k]? =
      if k = assignIdx (cs.map LineCluster.y) it.y then
        (cs[k]?).map fun c => ⟨c.y, c.items ++ [it]⟩
      else cs[k]?) := by
  induction cs with
  | nil => simp [anyMatch] at h
  | cons c0 rest ih =>
    by_cases h0 : (c0.y - it.y).natAbs ≤ 4
    · constructor
      · rw [insertItem, if_pos (by exact h0)]
        simp
      · intro k
        rw [insertItem, if_pos (by exact h0)]
        have hidx : assignIdx ((c0 :: rest).map LineCluster.y) it.y = 0 := by
          simp [assignIdx, h0]
        rw [hidx]
        cases k with
        | zero => simp
        | succ k => simp [Nat.succ_ne_zero]
    · have hrest : anyMatch (rest.map LineCluster.y) it.y = true := by
        simp only [List.map_cons, anyMatch, List.any_cons, Bool.or_eq_true,
          decide_eq_true_eq] at h
        rcases h with h | h
        · exact absurd h h0
        · simpa [anyMatch] using h
      obtain ⟨ih1, ih2⟩ := ih hrest
      constructor
      · rw [insertItem, if_neg (by exact h0)]
        simp only [List.map_cons, ih1]
      · intro k
        rw [insertItem, if_neg (by exact h0)]
        have hidx : assignIdx ((c0 :: rest).map LineCluster.y) it.y =
            assignIdx (rest.map LineCluster.y) it.y + 1 := by
          simp [assignIdx, h0]
        rw [hidx]
        cases k with
        | zero =>
          rw [if_neg (by omega)]
          simp
        | succ k =>
          simp only [List.getElem?_cons_succ]
          rw [ih2 k]
          by_cases hk : k = assignIdx (rest.map LineCluster.y) it.y
          · rw [if_pos hk, if_pos (by omega)]
          · rw [if_neg hk, if_neg (by omega)]

/-- The clustering loop, characterized order-independently: the founding
coordinates are a function of the processed `y` sequence, every processed
fragment matches some founding coordinate, and cluster `k` holds exactly
the fragments assigned index `k`, in processing order. -/
lemma buildClusters_spec (s : List RawItem) :
    (buildClusters s).map LineCluster.y = repsOf (s.map RawItem.y) ∧
    (∀ it' ∈ s, anyMatch (repsOf (s.map RawItem.y)) it'.y = true) ∧
    (∀ k : ℕ, (buildClusters s)[k]? =
      ((repsOf (s.map RawItem.y))[k]?).map fun r =>
        (⟨r, s.filter fun it => assignIdx (repsOf (s.map RawItem.y)) it.y = k⟩ :
          LineCluster)) := by
  induction s using List.reverseRecOn with
  | nil =>
    refine ⟨rfl, by simp, ?_⟩
    intro k
    simp [buildClusters, repsOf]
  | append_singleton s it ih =>
    obtain ⟨ih1, ih2, ih3⟩ := ih
    have hb : buildClusters (s ++ [it]) = insertItem (buildClusters s) it := by
      simp [buildClusters, List.foldl_append]
    have hys : (s ++ [it]).map RawItem.y = s.map RawItem.y ++ [it.y] := by simp
    have hlen : (buildClusters s).length = (repsOf (s.map RawItem.y)).length := by
      rw [← List.length_map (buildClusters s) LineCluster.y, ih1]
    by_cases hm : anyMatch (repsOf (s.map RawItem.y)) it.y
    · have hreps : repsOf ((s ++ [it]).map RawItem.y) = repsOf (s.map RawItem.y) := by
        rw [hys, repsOf_append, if_pos hm]
      have hmm : anyMatch ((buildClusters s).map LineCluster.y) it.y = true := by
        rw [ih1]; exact hm
      obtain ⟨hm1, hm2⟩ := insertItem_match hmm
      refine ⟨?_, ?_, ?_⟩
      · rw [hb, hreps, hm1, ih1]
      · intro it' hit'
        rw [hreps]
        rcases List.mem_append.mp hit' with h | h
        · exact ih2 it' h
        · rw [List.mem_singleton.mp h]; exact hm
      · intro k
        rw [hb, hreps, hm2 k, ih1]
        set reps := repsOf (s.map RawItem.y) with hrepsdef
        by_cases hk : k = assignIdx reps it.y
        · rw [if_pos hk, ih3 k]
          cases hr : reps[k]? with
          | none => rfl
          | some r =>
            simp only [Option.map_some']
            congr 1
            rw [List.filter_append]
            congr 1
            simp only [List.filter_cons, List.filter_nil]
            rw [if_pos (by rw [decide_eq_true_eq]; omega)]
        · rw [if_neg hk, ih3 k]
          cases hr : reps[k]? with
          | none => rfl
          | some r =>
            simp only [Option.map_some']
            congr 1
            rw [List.filter_append]
            have : ([it].filter fun it'' => assignIdx reps it''.y = k) = [] := by
              simp only [List.filter_cons, List.filter_nil]
              rw [if_neg (by simp only [decide_eq_true_eq]; omega)]
            rw [this, List.append_nil]
    · have hmb : anyMatch (repsOf (s.map RawItem.y)) it.y = false :=
        Bool.not_eq_true _ ▸ hm
      have hreps : repsOf ((s ++ [it]).map RawItem.y) =
          repsOf (s.map RawItem.y) ++ [it.y] := by
        rw [hys, repsOf_append, if_neg hm]
      have hb2 : buildClusters (s ++ [it]) =
          buildClusters s ++ [⟨it.y, [it]⟩] := by
        rw [hb, insertItem_no_match (by rw [ih1]; exact hmb)]
      set reps := repsOf (s.map RawItem.y) with hrepsdef
      have hself : assignIdx (reps ++ [it.y]) it.y = reps.length := by
        rw [assignIdx_append_single _ _ _ hmb]
        simp
      refine ⟨?_, ?_, ?_⟩
      · rw [hb2, hreps, List.map_append, ih1]
        rfl
      · intro it' hit'
        rw [hreps]
        rcases List.mem_append.mp hit' with h | h
        · have := ih2 it' h
          simp only [anyMatch, List.any_append, Bool.or_eq_true]
          exact Or.inl this
        · rw [List.mem_singleton.mp h]
          simp [anyMatch]
      · intro k
        rw [hb2, hreps]
        rcases lt_trichotomy k reps.length with hk | hk | hk
        · rw [List.getElem?_append_left (by omega : k < (buildClusters s).length),
            List.getElem?_append_left (by omega : k < reps.length), ih3 k]
          cases hr : reps[k]? with
          | none => rfl
          | some r =>
            simp only [Option.map_some']
            congr 1
            rw [List.filter_append]
            have h2 : ([it].filter fun it'' => assignIdx (reps ++ [it.y]) it''.y = k) = [] := by
              simp only [List.filter_cons, List.filter_nil]
              rw [if_neg (by simp only [decide_eq_true_eq, hself]; omega)]
            rw [h2, List.append_nil]
            congr 1
            apply List.filter_congr
            intro it'' hit''
            rw [decide_eq_decide]
            by_cases hany : anyMatch reps it''.y
            · rw [assignIdx_append_left _ _ _ hany]
            · have hfa : anyMatch reps it''.y = false := Bool.not_eq_true _ ▸ hany
              rw [assignIdx_eq_length _ _ hfa,
                assignIdx_append_single _ _ _ hfa]
              constructor
              · intro h3; omega
              · intro h3; omega
        · subst hk
          rw [List.getElem?_append_right (by omega : (buildClusters s).length ≤ reps.length),
            List.getElem?_append_right (by omega : reps.length ≤ reps.length)]
          rw [show reps.length - (buildClusters s).length = 0 by omega,
            show reps.length - reps.length = 0 by omega]
          simp only [List.getElem?_cons_zero, Option.map_some]
          congr 1
          rw [List.filter_append]
          have h1 : (s.filter fun it'' => assignIdx (reps ++ [it.y]) it''.y = reps.length) = [] := by
            rw [List.filter_eq_nil_iff]
            intro it'' hit''
            rw [decide_eq_true_eq]
            have hany := ih2 it'' hit''
            rw [assignIdx_append_left _ _ _ hany]
            have := (assignIdx_lt_iff reps it''.y).mpr hany
            omega
          have h2 : ([it].filter fun it'' => assignIdx (reps ++ [it.y]) it''.y = reps.length) = [it] := by
            simp only [List.filter_cons, List.filter_nil]
            rw [if_pos (by simp only [decide_eq_true_eq, hself])]
          rw [h1, h2, List.nil_append]
        · rw [List.getElem?_eq_none (by simp; omega),
            List.getElem?_eq_none (by simp; omega)]
          rfl

lemma repsOf_mem : ∀ (ys : List ℤ) (r : ℤ), r ∈ repsOf ys → r ∈ ys := by
  intro ys
  induction ys using List.reverseRecOn with
  | nil => intro r h; simp [repsOf] at h
  | append_singleton ys y ih =>
    intro r h
    rw [repsOf_append] at h
    split at h
    · exact List.mem_append_left _ (ih r h)
    · rcases List.mem_append.mp h with h | h
      · exact List.mem_append_left _ (ih r h)
      · exact List.mem_append_right _ h

lemma repsOf_strict : ∀ (ys : List ℤ),
    List.Sorted (fun a b : ℤ => b ≤ a) ys →
    List.Sorted (fun a b : ℤ => b < a) (repsOf ys) := by
  intro ys
  induction ys using List.reverseRecOn with
  | nil => intro _; simp [repsOf, List.Sorted]
  | append_singleton ys y ih =>
    intro hs
    have hs2 := List.pairwise_append.mp hs
    rw [repsOf_append]
    split
    · exact ih hs2.1
    · rename_i hnm
      rw [List.Sorted, List.pairwise_append]
      refine ⟨ih hs2.1, by simp, ?_⟩
      intro a ha b hb
      rw [List.mem_singleton.mp hb]
      have h1 : y ≤ a := hs2.2.2 a (repsOf_mem ys a ha) y (by simp)
      have h2 : ¬ (a - y).natAbs ≤ 4 := by
        simp only [anyMatch, List.any_eq_true, decide_eq_true_eq] at hnm
        push_neg at hnm
        have := hnm a ha
        omega
      omega

lemma eq_of_perm_of_map_eq {α β : Type} (f : α → β) :
    ∀ (l1 l2 : List α), l1.Perm l2 → l1.map f = l2.map f →
      (l1.map f).Nodup → l1 = l2 := by
  intro l1
  induction l1 with
  | nil =>
    intro l2 hp _ _
    exact hp.nil_eq
  | cons a t1 ih =>
    intro l2 hp hm hnd
    cases l2 with
    | nil => exact absurd hp.symm (by simp)
    | cons b t2 =>
      simp only [List.map_cons, List.cons.injEq] at hm
      obtain ⟨hab, ht⟩ := hm
      rcases List.mem_cons.mp (hp.mem_iff.mp (List.mem_cons_self a t1)) with h | h
      · subst h
        rw [ih t2 hp.cons_inv ht (by
          rw [List.map_cons] at hnd
          exact hnd.of_cons)]
      · exfalso
        have h2 : f a ∈ t2.map f := List.mem_map_of_mem f h
        rw [← ht] at h2
        rw [List.map_cons, List.nodup_cons] at hnd
        exact hnd.1 h2

instance : IsTotal LineCluster (fun a b => b.y ≤ a.y) :=
  ⟨fun a b => le_total b.y a.y⟩

instance : IsTrans LineCluster (fun a b => b.y ≤ a.y) :=
  ⟨fun _ _ _ hab hbc => le_trans hbc hab⟩

instance : IsTotal RawItem (fun a b => a.x ≤ b.x) :=
  ⟨fun a b => le_total a.x b.x⟩

instance : IsTrans RawItem (fun a b => a.x ≤ b.x) :=
  ⟨fun _ _ _ hab hbc => le_trans hab hbc⟩

instance : IsAntisymm ℤ (fun a b => b ≤ a) :=
  ⟨fun _ _ h1 h2 => le_antisymm h2 h1⟩

lemma buildClusters_sorted (s : List RawItem)
    (hs : List.Sorted (fun a b : RawItem => b.y ≤ a.y) s) :
    List.Sorted (fun a b : LineCluster => b.y ≤ a.y) (buildClusters s) := by
  have h1 := (buildClusters_spec s).1
  have h2 : List.Sorted (fun a b : ℤ => b ≤ a) (s.map RawItem.y) :=
    List.pairwise_map.mpr hs
  have h3 := repsOf_strict _ h2
  rw [← h1] at h3
  have h4 : List.Pairwise (fun a b : LineCluster => b.y < a.y) (buildClusters s) :=
    List.pairwise_map.mp h3
  exact h4.imp fun h => le_of_lt h

lemma sortClusters_buildClusters_eq (s : List RawItem)
    (hs : List.Sorted (fun a b : RawItem => b.y ≤ a.y) s) :
    sortClustersByYDesc (buildClusters s) = buildClusters s :=
  (buildClusters_sorted s hs).insertionSort_eq

lemma map_y_sortByYDesc_eq {r1 r2 : List RawItem} (hp : r1.Perm r2) :
    (sortByYDesc r1).map RawItem.y = (sortByYDesc r2).map RawItem.y := by
  have hperm : (sortByYDesc r1).Perm (sortByYDesc r2) :=
    ((List.perm_insertionSort _ r1).trans hp).trans (List.perm_insertionSort _ r2).symm
  have h1 : List.Sorted (fun a b : ℤ => b ≤ a) ((sortByYDesc r1).map RawItem.y) :=
    List.pairwise_map.mpr (List.sorted_insertionSort _ r1)
  have h2 : List.Sorted (fun a b : ℤ => b ≤ a) ((sortByYDesc r2).map RawItem.y) :=
    List.pairwise_map.mpr (List.sorted_insertionSort _ r2)
  exact List.eq_of_perm_of_sorted (hperm.map RawItem.y) h1 h2

instance : IsAntisymm ℚ (fun a b => a ≤ b) :=
  ⟨fun _ _ h1 h2 => le_antisymm h1 h2⟩

lemma sortByXAsc_eq_of_perm {f1 f2 : List RawItem} (hp : f1.Perm f2)
    (hx : f1.Pairwise fun a b => a.x ≠ b.x) :
    sortByXAsc f1 = sortByXAsc f2 := by
  have hperm : (sortByXAsc f1).Perm (sortByXAsc f2) :=
    ((List.perm_insertionSort _ f1).trans hp).trans (List.perm_insertionSort _ f2).symm
  have hs1 : List.Sorted (fun a b : ℚ => a ≤ b) ((sortByXAsc f1).map RawItem.x) :=
    List.pairwise_map.mpr (List.sorted_insertionSort _ f1)
  have hs2 : List.Sorted (fun a b : ℚ => a ≤ b) ((sortByXAsc f2).map RawItem.x) :=
    List.pairwise_map.mpr (List.sorted_insertionSort _ f2)
  have hmx : (sortByXAsc f1).map RawItem.x = (sortByXAsc f2).map RawItem.x :=
    List.eq_of_perm_of_sorted (hperm.map RawItem.x) hs1 hs2
  have hx1 : (sortByXAsc f1).Pairwise (fun a b => a.x ≠ b.x) :=
    ((List.perm_insertionSort _ f1).pairwise_iff (fun h => Ne.symm h)).mpr hx
  have hnd : ((sortByXAsc f1).map RawItem.x).Nodup := List.pairwise_map.mpr hx1
  exact eq_of_perm_of_map_eq RawItem.x _ _ hperm hmx hnd

/-- C5 counterexample: two fragments sharing position and rounded baseline
but with different text land on one line in input order, so the two
orderings of the same fragment multiset reconstruct different page text. -/
theorem C5_counterexample :
    ([⟨0, 100, "a"⟩, ⟨0, 100, "b"⟩] : List InputItem).Perm
      [⟨0, 100, "b"⟩, ⟨0, 100, "a"⟩] ∧
    processPage [⟨0, 100, "a"⟩, ⟨0, 100, "b"⟩] = "a b" ∧
    processPage [⟨0, 100, "b"⟩, ⟨0, 100, "a"⟩] = "b a" ∧
    ("a b" : String) ≠ "b a" :=
  ⟨List.Perm.swap _ _ _, by decide, by decide, by decide⟩

/-- C5 (amended): the layout reconstructor is order-stable on every page
whose kept fragments have pairwise distinct horizontal coordinates: for any
two orderings of the same fragment collection the reconstructed page text
is byte-for-byte identical.  Without that restriction it fails — fragments
with equal `x` and `y` keep their input order inside a line (see the
counterexample). -/
theorem C5_order_stability (l1 l2 : List InputItem) (hp : l1.Perm l2)
    (hx : (rawItemsOf l1).Pairwise fun a b => a.x ≠ b.x) :
    processPage l1 = processPage l2 := by
  have hr : (rawItemsOf l1).Perm (rawItemsOf l2) := (hp.filter _).map _
  have hs12 : (sortByYDesc (rawItemsOf l1)).Perm (sortByYDesc (rawItemsOf l2)) :=
    ((List.perm_insertionSort _ _).trans hr).trans (List.perm_insertionSort _ _).symm
  have hys := map_y_sortByYDesc_eq hr
  have hx1 : (sortByYDesc (rawItemsOf l1)).Pairwise (fun a b => a.x ≠ b.x) :=
    ((List.perm_insertionSort _ _).pairwise_iff (fun h => Ne.symm h)).mpr hx
  unfold processPage pageClusters
  rw [sortClusters_buildClusters_eq (sortByYDesc (rawItemsOf l1))
      (List.sorted_insertionSort _ _),
    sortClusters_buildClusters_eq (sortByYDesc (rawItemsOf l2))
      (List.sorted_insertionSort _ _)]
  congr 1
  apply List.ext_getElem?
  intro k
  rw [List.getElem?_map, List.getElem?_map,
    (buildClusters_spec (sortByYDesc (rawItemsOf l1))).2.2 k,
    (buildClusters_spec (sortByYDesc (rawItemsOf l2))).2.2 k, ← hys]
  cases hrk : (repsOf ((sortByYDesc (rawItemsOf l1)).map RawItem.y))[k]? with
  | none => rfl
  | some r =>
    simp only [Option.map_some']
    congr 2
    rw [sortByXAsc_eq_of_perm (hs12.filter _) (hx1.sublist (List.filter_sublist _))]

/-- C5 witness: order stability applied to two orderings of a concrete
two-fragment page with distinct horizontal positions. -/
theorem C5_order_stability_witness :
    processPage [⟨0, 100, "a"⟩, ⟨7, 101, "b"⟩] =
      processPage [⟨7, 101, "b"⟩, ⟨0, 100, "a"⟩] :=
  C5_order_stability _ _ (List.Perm.swap _ _ _) (by decide)
